import Mathlib

/-!
# gtsam 3.2.1 (anpl): factors and planar geometry

A shallow embedding of the parts of the sources that the specification's claims
are about.  Scalars (`double` in the sources) are taken in an arbitrary linearly
ordered field `K`, so that the very same definitions run on `ℚ` and are reasoned
about over `ℝ`.  Operations of `<cmath>` (`sqrt`, `cos`, `sin`) are passed as
arguments.
-/

namespace gtsam

/-! ## Values shared by the factors -/

/-- A `Key` names a variable (gtsam/inference/Key.h). -/
abbrev Key := Nat

/-- A dynamically sized Eigen vector (`gtsam::Vector`, also the contents of a
`LieVector`), as the list of its entries. -/
abbrev Vector (K : Type) := List K

/-- A dynamically sized Eigen matrix (`gtsam::Matrix`), as the list of its rows. -/
abbrev Matrix (K : Type) := List (List K)

/-- The exceptions that the embedded code raises or lets through. -/
inductive Exception where
  | CheiralityException
  | ValuesKeyDoesNotExist (key : Key)
  | message (what : String)
deriving DecidableEq, Repr

/-- Modelled from the spec: `gtsam::Values` (the Variable Store, "mapping
VariableId→ManifoldValue, keys unique"); Values.h is not among the sources.  Only
values of one type `T` are stored here. -/
abbrev Values (T : Type) := Key → Option T

/-- The method `Values::exists`. -/
def Values.exists {T : Type} (v : Values T) (key : Key) : Bool := (v key).isSome

/-- The method `Values::at<T>`: the value at `key`, an exception when there is none. -/
def Values.at {T : Type} (v : Values T) (key : Key) : Except Exception T :=
  match v key with
  | some t => .ok t
  | none => .error (.ValuesKeyDoesNotExist key)

/-- Modelled from the spec: the noise models that the embedded factors create,
each one named by the factory call of `gtsam::noiseModel` that builds it
(NoiseModel.h is not among the sources). -/
inductive SharedNoiseModel (K : Type) where
  | Isotropic_Sigma (dim : Nat) (sigma : K)
  | Isotropic_Variance (dim : Nat) (variance : K)
  | Constrained_All (dim : Nat) (mu : K)
  | Unit_Create (dim : Nat)
deriving DecidableEq, Repr

/-- Modelled from the spec: `dim()` of a noise model, the dimension that its
factory call was given ("error ... with dimension matching the noise model"). -/
def SharedNoiseModel.dim {K : Type} : SharedNoiseModel K → Nat
  | .Isotropic_Sigma dim _ => dim
  | .Isotropic_Variance dim _ => dim
  | .Constrained_All dim _ => dim
  | .Unit_Create dim => dim

/-- Modelled from the spec: a Gaussian noise model as the factors use it
("Noise-model contract: whiten(vector)->vector, whitenJacobian(matrix)->matrix"),
with `R()`, its square-root information matrix. -/
structure SharedGaussian (K : Type) where
  R : Matrix K
  whiten : Vector K → Vector K
  Whiten : Matrix K → Matrix K

section LinearAlgebra

variable {K : Type} [LinearOrderedField K]

/-- The function `zero(n)`, the vector of `n` zeros. -/
def zero (n : Nat) : Vector K := List.replicate n 0

/-- The function `zeros(m, n)`, the matrix of `m` rows and `n` columns of zeros. -/
def zeros (m n : Nat) : Matrix K := List.replicate m (List.replicate n 0)

/-- The function `ones(n)`, the vector of `n` ones. -/
def ones (n : Nat) : Vector K := List.replicate n 1

/-- Entry `i` of a vector, `v(i)` or `v[i]`; reading past the end is undefined in
the sources and gives `0` here. -/
def Vector.coeff (v : Vector K) (i : Nat) : K := v.getD i 0

/-- The product of a vector and a scalar. -/
def Vector.scale (s : K) (v : Vector K) : Vector K := v.map (fun a => s * a)

/-- The product `v * s` of a vector and a scalar on its right. -/
def Vector.mulScalar (v : Vector K) (s : K) : Vector K := v.map (fun a => a * s)

/-- The unary minus of a vector. -/
def Vector.neg (v : Vector K) : Vector K := v.map (fun a => -a)

/-- The `dot` product of two vectors. -/
def Vector.dot (v w : Vector K) : K := (List.zipWith (fun a b => a * b) v w).sum

/-- The product of a matrix and a scalar. -/
def Matrix.scale (s : K) (A : Matrix K) : Matrix K := A.map (Vector.scale s)

/-- The `transpose()` of a matrix. -/
def Matrix.transpose (A : Matrix K) : Matrix K := List.transpose A

/-- The product of two matrices. -/
def Matrix.mul (A B : Matrix K) : Matrix K :=
  A.map (fun row => (Matrix.transpose B).map (fun col => Vector.dot row col))

/-- The `norm()` of a matrix, the square root of the sum of its squared entries. -/
def Matrix.norm (sqrt : K → K) (A : Matrix K) : K :=
  sqrt ((A.map (fun row => Vector.dot row row)).sum)

/-- The function `gtsam::stack(2, &A, &B)`: the rows of `A` above the rows of `B`. -/
def stack (A B : Matrix K) : Matrix K := A ++ B

end LinearAlgebra

/-- A rational stand-in for `sqrt`, exact on the squares of rationals, on which
the definitions can be run. -/
def sqrtQ (q : ℚ) : ℚ := (Nat.sqrt q.num.toNat : ℚ) / (Nat.sqrt q.den : ℚ)

/-- A rational stand-in for `exp`, its Taylor polynomial of degree three. -/
def expQ (q : ℚ) : ℚ := 1 + q + q ^ 2 / 2 + q ^ 3 / 6

/-- Modelled from the spec: the operations of a Lie type `T` (Pose2, Pose3, ...)
that the factors call; Lie.h and the geometry headers are not among the sources.
`compose_H1`, `compose_H2`, `between_H1`, `between_H2` are the derivatives that
`compose` and `between` hand back through their optional arguments. -/
structure LieOps (K T : Type) where
  Dim : Nat
  identity : T
  inverse : T → T
  compose : T → T → T
  compose_H1 : T → T → Matrix K
  compose_H2 : T → T → Matrix K
  between : T → T → T
  between_H1 : T → T → Matrix K
  between_H2 : T → T → Matrix K
  Expmap : Vector K → T
  Logmap : T → Vector K
  localCoordinates : T → T → Vector K

/-- Modelled from the spec: the laws of a Lie type over exact arithmetic.  It is
a group, `between` is `inverse` followed by `compose`, `Logmap` sends the identity
to the zero vector, and `a.localCoordinates(b)` is `Logmap(a.between(b))`. -/
structure LieOps.IsLieGroup {K T : Type} [LinearOrderedField K] (L : LieOps K T) : Prop where
  compose_assoc : ∀ a b c, L.compose (L.compose a b) c = L.compose a (L.compose b c)
  identity_compose : ∀ a, L.compose L.identity a = a
  inverse_compose : ∀ a, L.compose (L.inverse a) a = L.identity
  between_eq : ∀ a b, L.between a b = L.compose (L.inverse a) b
  Logmap_identity : L.Logmap L.identity = zero L.Dim
  localCoordinates_eq : ∀ a b, L.localCoordinates a b = L.Logmap (L.between a b)

/-- The vectors of `n` rational entries under addition, a Lie type on which the
definitions can be run: `Expmap` and `Logmap` pass the entries through and every
derivative is plus or minus the identity matrix. -/
def vectorLie (n : Nat) : LieOps ℚ (Fin n → ℚ) where
  Dim := n
  identity := fun _ => 0
  inverse := fun a i => -(a i)
  compose := fun a b i => a i + b i
  compose_H1 := fun _ _ => List.ofFn (fun i : Fin n => List.ofFn (fun j : Fin n => if i = j then 1 else 0))
  compose_H2 := fun _ _ => List.ofFn (fun i : Fin n => List.ofFn (fun j : Fin n => if i = j then 1 else 0))
  between := fun a b i => -(a i) + b i
  between_H1 := fun _ _ => List.ofFn (fun i : Fin n => List.ofFn (fun j : Fin n => if i = j then -1 else 0))
  between_H2 := fun _ _ => List.ofFn (fun i : Fin n => List.ofFn (fun j : Fin n => if i = j then 1 else 0))
  Expmap := fun v i => v.getD i.val 0
  Logmap := fun a => List.ofFn a
  localCoordinates := fun a b => List.ofFn (fun i => -(a i) + b i)

/-! ## gtsam/inference/Factor.cpp -/

/-- The base class `Factor`: its only field is the list `keys_` of the keys that
the factor involves. -/
structure Factor where
  keys_ : List Key
deriving DecidableEq, Repr

/-- The method `Factor::equals(other, tol)` (Factor.cpp:54): `keys_ == other.keys_`,
the comparison of two vectors of keys; `tol` is not read. -/
def Factor.equals {K : Type} (self other : Factor) (_tol : K) : Bool :=
  decide (self.keys_ = other.keys_)

/-! ## gtsam/geometry/Point2.cpp -/

/-- A 2D point, the fields `x_` and `y_` of `Point2`. -/
structure Point2 (K : Type) where
  x : K
  y : K
deriving DecidableEq, Repr

namespace Point2

variable {K : Type} [LinearOrderedField K]

/-- The `operator+` of `Point2`. -/
def add (p q : Point2 K) : Point2 K := ⟨p.x + q.x, p.y + q.y⟩

/-- The `operator-` of `Point2`. -/
def sub (p q : Point2 K) : Point2 K := ⟨p.x - q.x, p.y - q.y⟩

/-- The `operator*(double, Point2)`, scaling of a point. -/
def smul (s : K) (p : Point2 K) : Point2 K := ⟨s * p.x, s * p.y⟩

/-- The method `Point2::norm` (Point2.cpp:47), the returned value `sqrt(x_*x_ + y_*y_)`. -/
def norm (sqrt : K → K) (p : Point2 K) : K := sqrt (p.x * p.x + p.y * p.y)

/-- Modelled from the spec: `Point2::dist` is declared in Point2.h, which is not
among the sources; it is the distance between two points, the norm of their
difference (as `Point2::distance`, Point2.cpp:62, computes it). -/
def dist (sqrt : K → K) (p q : Point2 K) : K := norm sqrt (sub q p)

/-- The function `Point2::CircleCircleIntersection(double R_d, double r_d, double tol)`
(Point2.cpp:89): the offsets `f` and `h` of the intersections, as fractions of
the distance between the centres. -/
def CircleCircleIntersection_fh (sqrt : K → K) (R_d r_d tol : K) : Option (Point2 K) :=
  let R2_d2 := R_d * R_d
  let f := 0.5 + 0.5 * (R2_d2 - r_d * r_d)
  let h2 := R2_d2 - f * f
  if h2 < -tol then none
  else if h2 < tol then some ⟨f, 0.0⟩
  else some ⟨f, sqrt h2⟩

/-- The function `Point2::CircleCircleIntersection(Point2 c1, Point2 c2, optional<Point2> fh)`
(Point2.cpp:104): the intersection points from the centres and the offsets. -/
def CircleCircleIntersection_pts (c1 c2 : Point2 K) (fh : Option (Point2 K)) :
    List (Point2 K) :=
  match fh with
  | none => []
  | some fh =>
    let c12 := sub c2 c1
    let p2 := add c1 (smul fh.x c12)
    if fh.y = 0.0 then [p2]
    else
      let offset := smul fh.y ⟨-c12.y, c12.x⟩
      [add p2 offset, sub p2 offset]

/-- The function `Point2::CircleCircleIntersection(Point2 c1, double r1, Point2 c2, double r2,
double tol)` (Point2.cpp:133), instrumented: the first component lists the values
`d` with which the normalisation `1.0/d` is evaluated, the second one is the
returned list.  The inner call leaves `tol` out, so it runs with the default of
the declaration in Point2.h, passed here as `defaultTol` (the header is not among
the sources). -/
def CircleCircleIntersection_traced (sqrt : K → K) (defaultTol : K)
    (c1 : Point2 K) (r1 : K) (c2 : Point2 K) (r2 : K) (_tol : K) :
    List K × List (Point2 K) :=
  let d := dist sqrt c1 c2
  if d < 1e-9 then ([], [])
  else
    let _d := 1.0 / d
    let R_d := r1 * _d
    let r_d := r2 * _d
    let fh := CircleCircleIntersection_fh sqrt R_d r_d defaultTol
    ([d], CircleCircleIntersection_pts c1 c2 fh)

/-- The list returned by `Point2::CircleCircleIntersection(c1, r1, c2, r2, tol)`. -/
def CircleCircleIntersection (sqrt : K → K) (defaultTol : K)
    (c1 : Point2 K) (r1 : K) (c2 : Point2 K) (r2 : K) (tol : K) : List (Point2 K) :=
  (CircleCircleIntersection_traced sqrt defaultTol c1 r1 c2 r2 tol).2

end Point2

/-! ## gtsam_unstable/slam/InvDepthFactorVariant2.h -/

/-- A 3D point, as `Point3` is used by the factor. -/
structure Point3 (K : Type) where
  x : K
  y : K
  z : K
deriving DecidableEq, Repr

/-- The `operator+` of `Point3`. -/
def Point3.add {K : Type} [LinearOrderedField K] (p q : Point3 K) : Point3 K :=
  ⟨p.x + q.x, p.y + q.y, p.z + q.z⟩

/-- The method `Point2::vector()`, the two coordinates as a vector. -/
def Point2.vector {K : Type} (p : Point2 K) : Vector K := [p.x, p.y]

/-- The calibration `Cal3_S2(fx, fy, s, u0, v0)`; the factor reads `fx()` only. -/
structure Cal3_S2 (K : Type) where
  fx : K
  fy : K
  s : K
  u0 : K
  v0 : K
deriving DecidableEq, Repr

/-- The fields of `InvDepthFactorVariant2`: the two keys of its base class, the
measurement, the calibration and the reference point. -/
structure InvDepthFactorVariant2 (K : Type) where
  key1 : Key
  key2 : Key
  measured_ : Point2 K
  K_ : Cal3_S2 K
  referencePoint_ : Point3 K

namespace InvDepthFactorVariant2

variable {K Pose3 : Type} [LinearOrderedField K]

/-- The method `InvDepthFactorVariant2::inverseDepthError` (InvDepthFactorVariant2.h:86).
`project pose K_ point` stands for `PinholeCamera<Cal3_S2>(pose, *K_).project(point)`,
whose header is not among the sources.  The `try` block is the first argument of
`tryCatch`; the handler catches `CheiralityException` only and lets every other
exception through.  The message that the handler prints is left out. -/
def inverseDepthError (cos sin : K → K)
    (project : Pose3 → Cal3_S2 K → Point3 K → Except Exception (Point2 K))
    (self : InvDepthFactorVariant2 K) (pose : Pose3) (landmark : Vector K) :
    Except Exception (Vector K) :=
  tryCatch
    (do
      let theta := Vector.coeff landmark 0
      let phi := Vector.coeff landmark 1
      let rho := Vector.coeff landmark 2
      let world_P_landmark := Point3.add self.referencePoint_
        ⟨cos theta * cos phi / rho, sin theta * cos phi / rho, sin phi / rho⟩
      let projected ← project pose self.K_ world_P_landmark
      let reprojectionError := Point2.sub projected self.measured_
      pure (Point2.vector reprojectionError))
    (fun e =>
      match e with
      | .CheiralityException =>
        pure (Vector.mulScalar (Vector.mulScalar (ones 2) 2.0) self.K_.fx)
      | other => throw other)

/-- The method `InvDepthFactorVariant2::evaluateError` (InvDepthFactorVariant2.h:106): the
error and the Jacobians `H1`, `H2` that were asked for.  `numericalDerivative11`
(numericalDerivative.h, not among the sources) is passed in, once for each type
of argument; an exception of the function it differentiates goes through it. -/
def evaluateError (cos sin : K → K)
    (project : Pose3 → Cal3_S2 K → Point3 K → Except Exception (Point2 K))
    (numericalDerivative11_pose :
      (Pose3 → Except Exception (Vector K)) → Pose3 → Except Exception (Matrix K))
    (numericalDerivative11_landmark :
      (Vector K → Except Exception (Vector K)) → Vector K → Except Exception (Matrix K))
    (self : InvDepthFactorVariant2 K) (pose : Pose3) (landmark : Vector K)
    (H1 H2 : Bool) :
    Except Exception (Vector K × Option (Matrix K) × Option (Matrix K)) := do
  let h1 ← if H1 then
      (numericalDerivative11_pose
        (fun p => inverseDepthError cos sin project self p landmark) pose).map some
    else pure none
  let h2 ← if H2 then
      (numericalDerivative11_landmark
        (fun l => inverseDepthError cos sin project self pose l) landmark).map some
    else pure none
  let error ← inverseDepthError cos sin project self pose landmark
  pure (error, h1, h2)

end InvDepthFactorVariant2

/-- A pinhole projection on which `InvDepthFactorVariant2` can be run: the camera
sits at the origin and looks along `z` (the pose is not used), and a point with
`z ≤ 0` raises `CheiralityException`. -/
def projectAtOrigin (_pose : Unit) (cal : Cal3_S2 ℚ) (p : Point3 ℚ) :
    Except Exception (Point2 ℚ) :=
  if p.z ≤ 0 then .error .CheiralityException
  else .ok ⟨cal.fx * (p.x / p.z) + cal.s * (p.y / p.z) + cal.u0, cal.fy * (p.y / p.z) + cal.v0⟩

/-- A one-sided difference quotient of step `1`, a stand-in for
`numericalDerivative11` on which `evaluateError` can be run: it fails only when
the function fails. -/
def differenceQuotient {A : Type} (step : A → A)
    (g : A → Except Exception (Vector ℚ)) (a : A) : Except Exception (Matrix ℚ) := do
  let v0 ← g a
  let v1 ← g (step a)
  pure [List.zipWith (fun b c => c - b) v0 v1]

/-- Modelled from the spec: the operations of `Pose2` that `SmartRangeFactor`
calls (Pose2.h is not among the sources): `translation()`, `range(point)` and the
derivative that `range(point, H)` hands back. -/
structure Pose2Ops (K Pose2 : Type) where
  translation : Pose2 → Point2 K
  range : Pose2 → Point2 K → K
  range_H : Pose2 → Point2 K → Matrix K

/-- The poses of heading zero, each given by its position: a `Pose2` on which
`SmartRangeFactor` can be run.  The range is the distance to the position. -/
def headingZeroPose2 {K : Type} [LinearOrderedField K] (sqrt : K → K) :
    Pose2Ops K (Point2 K) where
  translation := fun t => t
  range := fun t p => Point2.dist sqrt t p
  range_H := fun t p =>
    [[-((p.x - t.x) / Point2.dist sqrt t p), -((p.y - t.y) / Point2.dist sqrt t p), 0]]

/-! ## gtsam_unstable/slam/SmartRangeFactor.h -/

/-- The fields of `SmartRangeFactor`: the keys and the noise model of its base
class `NoiseModelFactor`, the range measurements and the variance. -/
structure SmartRangeFactor (K : Type) where
  keys_ : List Key
  noiseModel_ : SharedNoiseModel K
  measurements_ : List K
  variance_ : K
deriving DecidableEq, Repr

namespace SmartRangeFactor

variable {K : Type} [LinearOrderedField K]

/-- The constructor `SmartRangeFactor(double s)` (SmartRangeFactor.h:52), for a
standard deviation `s` of the range noise. -/
def create (s : K) : SmartRangeFactor K :=
  { keys_ := [], noiseModel_ := .Isotropic_Sigma 1 s, measurements_ := [], variance_ := s * s }

/-- The method `SmartRangeFactor::addRange` (SmartRangeFactor.h:60). -/
def addRange (self : SmartRangeFactor K) (key : Key) (measuredRange : K) :
    SmartRangeFactor K :=
  let keys := self.keys_ ++ [key]
  let measurements := self.measurements_ ++ [measuredRange]
  let n := keys.length
  { self with
    keys_ := keys
    measurements_ := measurements
    noiseModel_ := .Isotropic_Variance 1 ((n : K) * self.variance_) }

/-- The method `SmartRangeFactor::equals` (SmartRangeFactor.h:78), documented as
"Check if two factors are equal": its body is `return false;`. -/
def equals (_self _f : SmartRangeFactor K) (_tol : K) : Bool := false

/-- The nested struct `Circle2`: a centre and a radius. -/
structure Circle2 (K : Type) where
  center : Point2 K
  radius : K
deriving DecidableEq, Repr

/-- The first loop of `triangulate` (SmartRangeFactor.h:93): one circle for each
key, around the translation of the pose that `x` holds for it, with the measured
range as radius.  A key that `x` lacks raises the exception of `Values::at`. -/
def circles {Pose2 : Type} (P : Pose2Ops K Pose2) (self : SmartRangeFactor K)
    (x : Values Pose2) : Except Exception (List (Circle2 K)) :=
  (List.range self.keys_.length).mapM (fun j => do
    let pose ← Values.at x (self.keys_.getD j 0)
    pure ⟨P.translation pose, Vector.coeff self.measurements_ j⟩)

/-- The offsets `fh` that one round of the loop over all circles in `triangulate`
computes for the circle `it` (SmartRangeFactor.h:105-110): none when the round is
left by `continue`, the centres being less than `1e-9` apart, and otherwise what
`CircleCircleIntersection(R_d, r_d)` returns.  That call leaves `tol` out and
runs with the default of the declaration, `defaultTol`. -/
def roundOffsets (sqrt : K → K) (defaultTol : K) (circle1 it : Circle2 K) :
    Option (Point2 K) :=
  let d := Point2.dist sqrt circle1.center it.center
  if d < 1e-9 then none
  else Point2.CircleCircleIntersection_fh sqrt (circle1.radius / d) (it.radius / d) defaultTol

/-- One round of the loop over all circles in `triangulate`
(SmartRangeFactor.h:103-117): `best` holds `best_fh` and `best_circle`, which are
set together, when `fh && (!best_fh || fh->y() > best_fh->y())`. -/
def bestPairStep (sqrt : K → K) (defaultTol : K) (circle1 : Circle2 K)
    (best : Option (Point2 K × Circle2 K)) (it : Circle2 K) :
    Option (Point2 K × Circle2 K) :=
  match roundOffsets sqrt defaultTol circle1 it, best with
  | none, _ => best
  | some fh, none => some (fh, it)
  | some fh, some (best_fh, best_circle) =>
    if fh.y > best_fh.y then some (fh, it) else some (best_fh, best_circle)

/-- The loop over all circles in `triangulate` (SmartRangeFactor.h:103-117). -/
def bestPair (sqrt : K → K) (defaultTol : K) (circle1 : Circle2 K)
    (circles : List (Circle2 K)) : Option (Point2 K × Circle2 K) :=
  circles.foldl (bestPairStep sqrt defaultTol circle1) none

/-- The last loop of `triangulate` (SmartRangeFactor.h:124-129): `error1` and
`error2`, the sums over all circles of the distance from the centre to `p1` and
to `p2`. -/
def winnerErrors (sqrt : K → K) (circles : List (Circle2 K)) (p1 p2 : Point2 K) : K × K :=
  circles.foldl
    (fun e it => (e.1 + Point2.dist sqrt it.center p1, e.2 + Point2.dist sqrt it.center p2))
    (0, 0)

/-- The method `SmartRangeFactor::triangulate` (SmartRangeFactor.h:88).  Where the
source has undefined behaviour (`front()` of an empty list, `best_circle` read
while not set) an exception with a message is returned. -/
def triangulate {Pose2 : Type} (sqrt : K → K) (defaultTol : K) (P : Pose2Ops K Pose2)
    (self : SmartRangeFactor K) (x : Values Pose2) : Except Exception (Point2 K) := do
  let circles ← circles P self x
  match circles with
  | [] => .error (.message "circles.front() of an empty list")
  | circle1 :: _ =>
    match bestPair sqrt defaultTol circle1 circles with
    | none => .error (.message "best_circle is not set")
    | some (best_fh, best_circle) =>
      let intersections :=
        Point2.CircleCircleIntersection_pts circle1.center best_circle.center (some best_fh)
      match intersections.head?, intersections.getLast? with
      | some p1, some p2 =>
        let errors := winnerErrors sqrt circles p1 p2
        .ok (if errors.1 < errors.2 then p1 else p2)
      | _, _ => .error (.message "intersections.front() of an empty list")

/-- The method `SmartRangeFactor::unwhitenedError` (SmartRangeFactor.h:137): the
error and the vector `*H` of Jacobians after the call, when `H` was passed. -/
def unwhitenedError {Pose2 : Type} (sqrt : K → K) (defaultTol : K) (P : Pose2Ops K Pose2)
    (self : SmartRangeFactor K) (x : Values Pose2) (H : Option (List (Matrix K))) :
    Except Exception (Vector K × Option (List (Matrix K))) :=
  let n := self.keys_.length
  if n < 3 then
    .ok (zero 1, H.map (fun Hs => (List.range n).foldl (fun Hs j => Hs.set j (zeros 3 1)) Hs))
  else do
    let optimizedPoint ← triangulate sqrt defaultTol P self x
    (List.range n).foldlM
      (fun (acc : Vector K × Option (List (Matrix K))) j => do
        let pose ← Values.at x (self.keys_.getD j 0)
        let error0 := Vector.coeff acc.1 0
          + (P.range pose optimizedPoint - Vector.coeff self.measurements_ j)
        pure ([error0], acc.2.map (fun Hs => Hs.set j (P.range_H pose optimizedPoint))))
      (zero 1, H)

end SmartRangeFactor

/-! ## gtsam_unstable/slam/TransformBtwRobotsUnaryFactorEM.h -/

/-- The fields of `TransformBtwRobotsUnaryFactorEM<VALUE>`, `keys_` being the key
list of its base class. -/
structure TransformBtwRobotsUnaryFactorEM (K T : Type) where
  keys_ : List Key
  key_ : Key
  measured_ : T
  valA_ : Values T
  valB_ : Values T
  keyA_ : Key
  keyB_ : Key
  model_inlier_ : SharedGaussian K
  model_outlier_ : SharedGaussian K
  prior_inlier_ : K
  prior_outlier_ : K
  flag_bump_up_near_zero_probs_ : Bool
  start_with_M_step_ : Bool

/-- The `JacobianFactor(key, A, b, model)` that `linearize` builds. -/
structure JacobianFactor (K : Type) where
  key : Key
  A : Matrix K
  b : Vector K
  model : SharedNoiseModel K

namespace TransformBtwRobotsUnaryFactorEM

variable {K T : Type} [LinearOrderedField K]

/-- The method `setValAValB` (TransformBtwRobotsUnaryFactorEM.h:137). -/
def setValAValB (self : TransformBtwRobotsUnaryFactorEM K T) (valA valB : Values T) :
    Except Exception (TransformBtwRobotsUnaryFactorEM K T) :=
  if (!Values.exists valA self.keyA_) && (!Values.exists valB self.keyA_)
      && (!Values.exists valA self.keyB_) && (!Values.exists valB self.keyB_) then
    .error (.message "something is wrong!")
  else if Values.exists valA self.keyA_ then
    .ok { self with valA_ := valA, valB_ := valB }
  else
    .ok { self with valA_ := valB, valB_ := valA }

/-- The constructor (TransformBtwRobotsUnaryFactorEM.h:81): the initialiser list,
then `setValAValB`.  The initialiser list sets `start_with_M_step_` to `false`
whatever the argument `start_with_M_step` is. -/
def create (key : Key) (measured : T) (keyA keyB : Key) (valA valB : Values T)
    (model_inlier model_outlier : SharedGaussian K) (prior_inlier prior_outlier : K)
    (flag_bump_up_near_zero_probs : Bool) (_start_with_M_step : Bool) :
    Except Exception (TransformBtwRobotsUnaryFactorEM K T) :=
  setValAValB
    { keys_ := [key], key_ := key, measured_ := measured,
      valA_ := fun _ => none, valB_ := fun _ => none,
      keyA_ := keyA, keyB_ := keyB,
      model_inlier_ := model_inlier, model_outlier_ := model_outlier,
      prior_inlier_ := prior_inlier, prior_outlier_ := prior_outlier,
      flag_bump_up_near_zero_probs_ := flag_bump_up_near_zero_probs,
      start_with_M_step_ := false }
    valA valB

/-- The method `calcIndicatorProb(x, err)` (TransformBtwRobotsUnaryFactorEM.h:257): the
inlier and outlier indicator probabilities. -/
def calcIndicatorProb (sqrt exp : K → K) (self : TransformBtwRobotsUnaryFactorEM K T)
    (_x : Values T) (err : Vector K) : Vector K :=
  let err_wh_inlier := self.model_inlier_.whiten err
  let err_wh_outlier := self.model_outlier_.whiten err
  let invCov_inlier := Matrix.mul (Matrix.transpose self.model_inlier_.R) self.model_inlier_.R
  let invCov_outlier := Matrix.mul (Matrix.transpose self.model_outlier_.R) self.model_outlier_.R
  let p_inlier := self.prior_inlier_ * sqrt (Matrix.norm sqrt invCov_inlier)
    * exp (-0.5 * Vector.dot err_wh_inlier err_wh_inlier)
  let p_outlier := self.prior_outlier_ * sqrt (Matrix.norm sqrt invCov_outlier)
    * exp (-0.5 * Vector.dot err_wh_outlier err_wh_outlier)
  let sumP := p_inlier + p_outlier
  let p_inlier := p_inlier / sumP
  let p_outlier := p_outlier / sumP
  if self.flag_bump_up_near_zero_probs_ then
    let minP : K := 0.05
    if p_inlier < minP ∨ p_outlier < minP then
      let p_inlier := if p_inlier < minP then minP else p_inlier
      let p_outlier := if p_outlier < minP then minP else p_outlier
      let sumP := p_inlier + p_outlier
      [p_inlier / sumP, p_outlier / sumP]
    else [p_inlier, p_outlier]
  else [p_inlier, p_outlier]

/-- The method `whitenedError(x, H)` (TransformBtwRobotsUnaryFactorEM.h:182).  The method is
`const` but writes the `mutable` field `start_with_M_step_`, so the factor after
the call is returned next to the result.  The result is the whitened error and
the vector `*H` of Jacobians after the call, when `H` was passed. -/
def whitenedError (L : LieOps K T) (sqrt exp : K → K)
    (self : TransformBtwRobotsUnaryFactorEM K T) (x : Values T)
    (H : Option (List (Matrix K))) :
    Except Exception (Vector K × Option (List (Matrix K)))
      × TransformBtwRobotsUnaryFactorEM K T :=
  match Values.at self.valA_ self.keyA_, Values.at self.valB_ self.keyB_,
      Values.at x self.key_ with
  | .error e, _, _ => (.error e, self)
  | .ok _, .error e, _ => (.error e, self)
  | .ok _, .ok _, .error e => (.error e, self)
  | .ok orgA_T_currA, .ok orgB_T_currB, .ok orgA_T_orgB =>
    let H_compose := L.compose_H1 orgA_T_orgB orgB_T_currB
    let orgA_T_currB := L.compose orgA_T_orgB orgB_T_currB
    let H_between1 := L.between_H2 orgA_T_currA orgA_T_currB
    let currA_T_currB_pred := L.between orgA_T_currA orgA_T_currB
    let currA_T_currB_msr := self.measured_
    let err := L.localCoordinates currA_T_currB_msr currA_T_currB_pred
    let p_inlier_outlier := calcIndicatorProb sqrt exp self x err
    let p_inlier := Vector.coeff p_inlier_outlier 0
    let p_outlier := Vector.coeff p_inlier_outlier 1
    let after : TransformBtwRobotsUnaryFactorEM K T :=
      if self.start_with_M_step_ then { self with start_with_M_step_ := false } else self
    let p_inlier := if self.start_with_M_step_ then 0.5 else p_inlier
    let p_outlier := if self.start_with_M_step_ then 0.5 else p_outlier
    let err_wh_inlier := after.model_inlier_.whiten err
    let err_wh_outlier := after.model_outlier_.whiten err
    let err_wh_eq := Vector.scale (sqrt p_inlier) err_wh_inlier
      ++ Vector.scale (sqrt p_outlier) err_wh_outlier
    let H_unwh := Matrix.mul H_compose H_between1
    let Hout := H.map (fun Hs =>
      let H_inlier := Matrix.scale (sqrt p_inlier) (after.model_inlier_.Whiten H_unwh)
      let H_outlier := Matrix.scale (sqrt p_outlier) (after.model_outlier_.Whiten H_unwh)
      let H_aug := stack H_inlier H_outlier
      Hs.set 0 H_aug)
    (.ok (err_wh_eq, Hout), after)

/-- The method `size()` (TransformBtwRobotsUnaryFactorEM.h:405). -/
def size (_self : TransformBtwRobotsUnaryFactorEM K T) : Nat := 1

/-- The method `linearize(x)` (TransformBtwRobotsUnaryFactorEM.h:165), with the factor after
the call.  `active` is `NonlinearFactor::active`, whose header is not among the
sources; an inactive factor linearizes to the null pointer, `none`. -/
def linearize (L : LieOps K T) (sqrt exp : K → K) (active : Values T → Bool)
    (self : TransformBtwRobotsUnaryFactorEM K T) (x : Values T) :
    Except Exception (Option (JacobianFactor K)) × TransformBtwRobotsUnaryFactorEM K T :=
  if !active x then (.ok none, self)
  else
    let A : List (Matrix K) := List.replicate (size self) []
    match whitenedError L sqrt exp self x (some A) with
    | (.error e, after) => (.error e, after)
    | (.ok (wh, A), after) =>
      let b := Vector.neg wh
      let A1 := (A.getD []).getD 0 []
      (.ok (some ⟨after.key_, A1, b, .Unit_Create b.length⟩), after)

end TransformBtwRobotsUnaryFactorEM

/-- The Gaussian model with the `1 × 1` square-root information matrix `(r)`, a
noise model on which the factors can be run. -/
def scalarGaussian (r : ℚ) : SharedGaussian ℚ where
  R := [[r]]
  whiten := fun v => Vector.scale r v
  Whiten := fun A => Matrix.scale r A

/-! ## gtsam_unstable/dynamics/SimpleHelicopter.h -/

/-- The fields of `Reconstruction`: the keys and the noise model of its base
class, and the time step. -/
structure Reconstruction (K : Type) where
  keys_ : List Key
  noiseModel_ : SharedNoiseModel K
  h_ : K

namespace Reconstruction

variable {K Pose3 : Type} [LinearOrderedField K]

/-- The constructor `Reconstruction(gKey1, gKey, xiKey, h, mu)`
(SimpleHelicopter.h:32); `Dim` is `Pose3::Dim()`. -/
def create (Dim : Nat) (gKey1 gKey xiKey : Key) (h mu : K) : Reconstruction K :=
  { keys_ := [gKey1, gKey, xiKey], noiseModel_ := .Constrained_All Dim |mu|, h_ := h }

/-- The method `Reconstruction::evaluateError` (SimpleHelicopter.h:44): the error and the
Jacobians `H1`, `H2`, `H3` that were asked for.  `P` holds the operations of
`Pose3` and `dExpInv_exp` is `Pose3::dExpInv_exp`. -/
def evaluateError (P : LieOps K Pose3) (dExpInv_exp : Vector K → Matrix K)
    (self : Reconstruction K) (gk1 gk : Pose3) (xik : Vector K) (H1 H2 H3 : Bool) :
    Vector K × Option (Matrix K) × Option (Matrix K) × Option (Matrix K) :=
  let D_gkxi_gk := P.compose_H1 gk (P.Expmap (Vector.scale self.h_ xik))
  let D_gkxi_exphxi := P.compose_H2 gk (P.Expmap (Vector.scale self.h_ xik))
  let gkxi := P.compose gk (P.Expmap (Vector.scale self.h_ xik))
  let D_hx_gkxi := P.between_H1 gkxi gk1
  let D_hx_gk1 := P.between_H2 gkxi gk1
  let hx := P.between gkxi gk1
  let h1 := if H1 then some D_hx_gk1 else none
  let h2 := if H2 then
      let D_hx_gk := Matrix.mul D_hx_gkxi D_gkxi_gk
      some D_hx_gk
    else none
  let h3 := if H3 then
      let D_exphxi_xi := Matrix.scale self.h_ (dExpInv_exp (Vector.scale self.h_ xik))
      let D_hx_xi := Matrix.mul (Matrix.mul D_hx_gkxi D_gkxi_exphxi) D_exphxi_xi
      some D_hx_xi
    else none
  (P.Logmap hx, h1, h2, h3)

end Reconstruction

/-! ## gtsam/slam/BetweenFactor.h -/

/-- The fields of `BetweenFactor<VALUE>`: the keys and the noise model of its base
class, and the measurement. -/
structure BetweenFactor (K T : Type) where
  key1 : Key
  key2 : Key
  noiseModel_ : SharedNoiseModel K
  measured_ : T

namespace BetweenFactor

variable {K T : Type} [LinearOrderedField K]

/-- The method `BetweenFactor::evaluateError` (BetweenFactor.h:98): the error and the
Jacobians `H1`, `H2` of `between` that were asked for. -/
def evaluateError (L : LieOps K T) (self : BetweenFactor K T) (p1 p2 : T) (H1 H2 : Bool) :
    Vector K × Option (Matrix K) × Option (Matrix K) :=
  let h1 := if H1 then some (L.between_H1 p1 p2) else none
  let h2 := if H2 then some (L.between_H2 p1 p2) else none
  let hx := L.between p1 p2
  (L.localCoordinates self.measured_ hx, h1, h2)

end BetweenFactor

/-! ## Theorems -/

section Literals

variable {K : Type} [LinearOrderedField K]

/-- The literal `0.0` is zero. -/
theorem lit_zero : (0.0 : K) = 0 := by norm_num

/-- The literal `1.0` is one. -/
theorem lit_one : (1.0 : K) = 1 := by norm_num

/-- The literal `2.0` is two. -/
theorem lit_two : (2.0 : K) = 2 := by norm_num

/-- The literal `0.5` is one half. -/
theorem lit_half : (0.5 : K) = 1 / 2 := by norm_num

/-- The literal `1e-9` is positive. -/
theorem lit_tiny_pos : (0 : K) < 1e-9 := by norm_num

end Literals

namespace InvDepthFactorVariant2
variable {K Pose3 : Type} [LinearOrderedField K]

/-- The value of `inverseDepthError` in terms of what `project` does. -/
theorem inverseDepthError_cases (cos sin : K → K)
    (project : Pose3 → Cal3_S2 K → Point3 K → Except Exception (Point2 K))
    (self : InvDepthFactorVariant2 K) (pose : Pose3) (landmark : Vector K) :
    inverseDepthError cos sin project self pose landmark =
      match project pose self.K_ (Point3.add self.referencePoint_
        ⟨cos (Vector.coeff landmark 0) * cos (Vector.coeff landmark 1) / Vector.coeff landmark 2,
         sin (Vector.coeff landmark 0) * cos (Vector.coeff landmark 1) / Vector.coeff landmark 2,
         sin (Vector.coeff landmark 1) / Vector.coeff landmark 2⟩) with
      | .ok p => .ok [p.x - self.measured_.x, p.y - self.measured_.y]
      | .error .CheiralityException => .ok [2 * self.K_.fx, 2 * self.K_.fx]
      | .error e => .error e := by
  unfold inverseDepthError
  simp only []
  cases h : project pose self.K_ (Point3.add self.referencePoint_
        ⟨cos (Vector.coeff landmark 0) * cos (Vector.coeff landmark 1) / Vector.coeff landmark 2,
         sin (Vector.coeff landmark 0) * cos (Vector.coeff landmark 1) / Vector.coeff landmark 2,
         sin (Vector.coeff landmark 1) / Vector.coeff landmark 2⟩) with
  | error e =>
    cases e <;>
      simp [tryCatch, tryCatchThe, MonadExceptOf.tryCatch, Except.tryCatch, bind, Except.bind,
        pure, Except.pure, throw, throwThe, MonadExceptOf.throw, Vector.mulScalar, ones, lit_two]
  | ok p =>
    simp [tryCatch, tryCatchThe, MonadExceptOf.tryCatch, Except.tryCatch, bind, Except.bind,
      pure, Except.pure, Point2.vector, Point2.sub]

/-- C1: when projecting the landmark's world point raises a cheirality
exception, `inverseDepthError` returns the vector `(2*fx, 2*fx)` instead of
raising, and when the projection returns a point it returns that point minus the
measurement.  `evaluateError` returns the same vector, whichever Jacobians are
asked for, as long as `project` raises no other exception and the numerical
derivative of a function that always returns, returns. -/
theorem cheirality_penalty (cos sin : K → K)
    (project : Pose3 → Cal3_S2 K → Point3 K → Except Exception (Point2 K))
    (numericalDerivative11_pose :
      (Pose3 → Except Exception (Vector K)) → Pose3 → Except Exception (Matrix K))
    (numericalDerivative11_landmark :
      (Vector K → Except Exception (Vector K)) → Vector K → Except Exception (Matrix K))
    (self : InvDepthFactorVariant2 K) (pose : Pose3) (theta phi rho : K) :
    let world := Point3.add self.referencePoint_
      ⟨cos theta * cos phi / rho, sin theta * cos phi / rho, sin phi / rho⟩
    (project pose self.K_ world = .error .CheiralityException →
      inverseDepthError cos sin project self pose [theta, phi, rho]
        = .ok [2 * self.K_.fx, 2 * self.K_.fx]) ∧
    (∀ p, project pose self.K_ world = .ok p →
      inverseDepthError cos sin project self pose [theta, phi, rho]
        = .ok [p.x - self.measured_.x, p.y - self.measured_.y]) ∧
    ((∀ q w, project q self.K_ w = .error .CheiralityException ∨ ∃ p, project q self.K_ w = .ok p) →
      (∀ g a, (∀ b, ∃ v, g b = .ok v) → ∃ m, numericalDerivative11_pose g a = .ok m) →
      (∀ g a, (∀ b, ∃ v, g b = .ok v) → ∃ m, numericalDerivative11_landmark g a = .ok m) →
      ∀ H1 H2 : Bool, ∃ h1 h2, h1.isSome = H1 ∧ h2.isSome = H2 ∧
        (project pose self.K_ world = .error .CheiralityException →
          evaluateError cos sin project numericalDerivative11_pose
            numericalDerivative11_landmark self pose [theta, phi, rho] H1 H2
            = .ok ([2 * self.K_.fx, 2 * self.K_.fx], h1, h2)) ∧
        (∀ p, project pose self.K_ world = .ok p →
          evaluateError cos sin project numericalDerivative11_pose
            numericalDerivative11_landmark self pose [theta, phi, rho] H1 H2
            = .ok ([p.x - self.measured_.x, p.y - self.measured_.y], h1, h2))) := by
  intro world
  have hcases := inverseDepthError_cases cos sin project self pose [theta, phi, rho]
  have hw : Point3.add self.referencePoint_
        ⟨cos (Vector.coeff [theta, phi, rho] 0) * cos (Vector.coeff [theta, phi, rho] 1)
            / Vector.coeff [theta, phi, rho] 2,
         sin (Vector.coeff [theta, phi, rho] 0) * cos (Vector.coeff [theta, phi, rho] 1)
            / Vector.coeff [theta, phi, rho] 2,
         sin (Vector.coeff [theta, phi, rho] 1) / Vector.coeff [theta, phi, rho] 2⟩ = world := rfl
  rw [hw] at hcases
  refine ⟨?_, ?_, ?_⟩
  · intro h
    rw [hcases, h]
  · intro p h
    rw [hcases, h]
  · intro hproj hnd1 hnd2 H1 H2
    have total : ∀ (q : Pose3) (l : Vector K), ∃ v,
        inverseDepthError cos sin project self q l = .ok v := by
      intro q l
      rw [inverseDepthError_cases]
      rcases hproj q (Point3.add self.referencePoint_
        ⟨cos (Vector.coeff l 0) * cos (Vector.coeff l 1) / Vector.coeff l 2,
         sin (Vector.coeff l 0) * cos (Vector.coeff l 1) / Vector.coeff l 2,
         sin (Vector.coeff l 1) / Vector.coeff l 2⟩) with h | ⟨p, h⟩
      · rw [h]; exact ⟨_, rfl⟩
      · rw [h]; exact ⟨_, rfl⟩
    obtain ⟨v, hv⟩ := total pose [theta, phi, rho]
    obtain ⟨m1, hm1⟩ := hnd1 (fun p => inverseDepthError cos sin project self p [theta, phi, rho])
      pose (fun b => total b _)
    obtain ⟨m2, hm2⟩ := hnd2 (fun l => inverseDepthError cos sin project self pose l)
      [theta, phi, rho] (fun b => total pose b)
    have hev : evaluateError cos sin project numericalDerivative11_pose
        numericalDerivative11_landmark self pose [theta, phi, rho] H1 H2
        = .ok (v, if H1 then some m1 else none, if H2 then some m2 else none) := by
      unfold evaluateError
      rw [hv, hm1, hm2]
      cases H1 <;> cases H2 <;> rfl
    refine ⟨if H1 then some m1 else none, if H2 then some m2 else none, ?_, ?_, ?_, ?_⟩
    · cases H1 <;> rfl
    · cases H2 <;> rfl
    · intro h
      rw [hcases, h] at hv
      injection hv with hv
      rw [hev, ← hv]
    · intro p h
      rw [hcases, h] at hv
      injection hv with hv
      rw [hev, ← hv]

/-- The projection `projectAtOrigin` raises `CheiralityException` or returns. -/
theorem projectAtOrigin_total (q : Unit) (cal : Cal3_S2 ℚ) (w : Point3 ℚ) :
    projectAtOrigin q cal w = .error .CheiralityException ∨
      ∃ p, projectAtOrigin q cal w = .ok p := by
  unfold projectAtOrigin
  split
  · exact Or.inl rfl
  · exact Or.inr ⟨_, rfl⟩

/-- The difference quotient of a function that always returns, returns. -/
theorem differenceQuotient_total {A : Type} (step : A → A)
    (g : A → Except Exception (Vector ℚ)) (a : A) (hg : ∀ b, ∃ v, g b = .ok v) :
    ∃ m, differenceQuotient step g a = .ok m := by
  obtain ⟨v0, h0⟩ := hg a
  obtain ⟨v1, h1⟩ := hg (step a)
  exact ⟨_, by unfold differenceQuotient; rw [h0, h1]; rfl⟩

/-- C1 at a landmark behind the camera: for the camera at the origin, the
reference point `(0, 0, 0)` and the landmark `(0, 0, -1)` (with `cos 0 = 1` and
`sin 0 = 0`) the world point is `(-1, 0, 0)`, the projection raises
`CheiralityException`, and the error is `(2 * 444, 2 * 444)`, also from
`evaluateError` with both Jacobians. -/
theorem cheirality_penalty_witness :
    inverseDepthError (fun _ => (1 : ℚ)) (fun _ => 0) projectAtOrigin
        ⟨0, 1, ⟨0, 0⟩, ⟨444, 555, 666, 777, 888⟩, ⟨0, 0, 0⟩⟩ () [0, 0, -1]
      = .ok [2 * 444, 2 * 444] ∧
    ∃ h1 h2, h1.isSome = true ∧ h2.isSome = true ∧
      evaluateError (fun _ => (1 : ℚ)) (fun _ => 0) projectAtOrigin
        (differenceQuotient id) (differenceQuotient id)
        ⟨0, 1, ⟨0, 0⟩, ⟨444, 555, 666, 777, 888⟩, ⟨0, 0, 0⟩⟩ () [0, 0, -1] true true
        = .ok ([2 * 444, 2 * 444], h1, h2) := by
  have hbehind : projectAtOrigin () (⟨444, 555, 666, 777, 888⟩ : Cal3_S2 ℚ)
      (Point3.add ⟨0, 0, 0⟩ ⟨1 * 1 / (-1), 0 * 1 / (-1), 0 / (-1)⟩)
      = .error .CheiralityException := by
    simp [projectAtOrigin, Point3.add]
  have key := cheirality_penalty (fun _ => (1 : ℚ)) (fun _ => 0) projectAtOrigin
    (differenceQuotient id) (differenceQuotient id)
    ⟨0, 1, ⟨0, 0⟩, ⟨444, 555, 666, 777, 888⟩, ⟨0, 0, 0⟩⟩ () 0 0 (-1)
  obtain ⟨h1, h2, e1, e2, hch, _⟩ := key.2.2
    (fun q w => projectAtOrigin_total q _ w)
    (fun g a hg => differenceQuotient_total id g a hg)
    (fun g a hg => differenceQuotient_total id g a hg) true true
  exact ⟨key.1 hbehind, h1, h2, e1, e2, hch hbehind⟩

end InvDepthFactorVariant2

namespace SmartRangeFactor
variable {K : Type} [LinearOrderedField K]

/-- C2, as the code has it: `addRange` changes the factor.  It appends the key to
the key list and the range to the measurements and replaces the noise model by
the isotropic model of dimension 1 and variance `n * variance_`, `n` being the
new number of keys; `variance_` stays as it was. -/
theorem addRange_appends (self : SmartRangeFactor K) (key : Key) (measuredRange : K) :
    (addRange self key measuredRange).keys_ = self.keys_ ++ [key] ∧
    (addRange self key measuredRange).measurements_ = self.measurements_ ++ [measuredRange] ∧
    (addRange self key measuredRange).noiseModel_ =
      .Isotropic_Variance 1 (((self.keys_.length + 1 : Nat) : K) * self.variance_) ∧
    (addRange self key measuredRange).variance_ = self.variance_ := by
  simp [addRange]

/-- C2 fails as stated: after `addRange(0, 1)` on the factor built with standard
deviation 1, the key list, the measurements and the noise model all differ from
what they were before the call. -/
theorem addRange_mutates :
    (addRange (create (1 : ℚ)) 0 1).keys_ ≠ (create (1 : ℚ)).keys_ ∧
    (addRange (create (1 : ℚ)) 0 1).measurements_ ≠ (create (1 : ℚ)).measurements_ ∧
    (addRange (create (1 : ℚ)) 0 1).noiseModel_ ≠ (create (1 : ℚ)).noiseModel_ := by
  simp [addRange, create]

end SmartRangeFactor

namespace TransformBtwRobotsUnaryFactorEM

/-- The method `setValAValB` writes `valA_` and `valB_` only. -/
theorem setValAValB_flag {K T : Type} (self after : TransformBtwRobotsUnaryFactorEM K T)
    (valA valB : Values T) (h : setValAValB self valA valB = .ok after) :
    after.start_with_M_step_ = self.start_with_M_step_ := by
  unfold setValAValB at h
  split at h
  · cases h
  · split at h <;> (injection h with h; subst h; rfl)

variable {K T : Type} [LinearOrderedField K]

/-- A factor whose flag `start_with_M_step_` is down is left as it is by
`whitenedError`. -/
theorem whitenedError_state (L : LieOps K T) (sqrt exp : K → K)
    (self : TransformBtwRobotsUnaryFactorEM K T) (hflag : self.start_with_M_step_ = false)
    (x : Values T) (H : Option (List (Matrix K))) :
    (whitenedError L sqrt exp self x H).2 = self := by
  unfold whitenedError
  split <;> simp [hflag]

/-- A factor whose flag `start_with_M_step_` is down is left as it is by
`linearize`. -/
theorem linearize_state (L : LieOps K T) (sqrt exp : K → K) (active : Values T → Bool)
    (self : TransformBtwRobotsUnaryFactorEM K T) (hflag : self.start_with_M_step_ = false)
    (x : Values T) :
    (linearize L sqrt exp active self x).2 = self := by
  have h := whitenedError_state L sqrt exp self hflag x
    (some (List.replicate (size self) []))
  unfold linearize
  split
  · rfl
  · simp only []
    split
    · next e after heq => rw [heq] at h; exact h
    · next wh A after heq => rw [heq] at h; exact h

/-- C3: a factor built by the public constructor, whatever is passed for
`start_with_M_step`, is left unchanged in every field by `whitenedError` and by
`linearize`, so that a second call on the same values returns what the first one
returned. -/
theorem linearization_no_side_effects (L : LieOps K T) (sqrt exp : K → K)
    (active : Values T → Bool) (key : Key) (measured : T) (keyA keyB : Key)
    (valA valB : Values T) (model_inlier model_outlier : SharedGaussian K)
    (prior_inlier prior_outlier : K) (flag_bump_up_near_zero_probs start_with_M_step : Bool)
    (self : TransformBtwRobotsUnaryFactorEM K T)
    (hself : create key measured keyA keyB valA valB model_inlier model_outlier
      prior_inlier prior_outlier flag_bump_up_near_zero_probs start_with_M_step = .ok self)
    (x : Values T) (H : Option (List (Matrix K))) :
    (whitenedError L sqrt exp self x H).2 = self ∧
    (linearize L sqrt exp active self x).2 = self ∧
    (whitenedError L sqrt exp (whitenedError L sqrt exp self x H).2 x H).1
      = (whitenedError L sqrt exp self x H).1 ∧
    (linearize L sqrt exp active (linearize L sqrt exp active self x).2 x).1
      = (linearize L sqrt exp active self x).1 := by
  have hflag : self.start_with_M_step_ = false := by
    unfold create at hself
    rw [setValAValB_flag _ _ _ _ hself]
  have h1 := whitenedError_state L sqrt exp self hflag x H
  have h2 := linearize_state L sqrt exp active self hflag x
  exact ⟨h1, h2, by rw [h1], by rw [h2]⟩

/-- C3 at a factor over the 1-vectors, built with `start_with_M_step = true`:
the constructor returns a factor and `whitenedError` leaves it as it is. -/
theorem linearization_no_side_effects_witness :
    ∃ self : TransformBtwRobotsUnaryFactorEM ℚ (Fin 1 → ℚ),
      create 0 (fun _ => 1) 1 2
        (fun k => if k = 1 then some (fun _ => 0) else none)
        (fun k => if k = 2 then some (fun _ => 0) else none)
        (scalarGaussian 1) (scalarGaussian (1 / 2)) (1 / 2) (1 / 2) true true = .ok self ∧
      (whitenedError (vectorLie 1) sqrtQ expQ self
        (fun k => if k = 0 then some (fun _ => 3) else none) (some [[]])).2 = self :=
  ⟨_, rfl, (linearization_no_side_effects (vectorLie 1) sqrtQ expQ (fun _ => true)
    0 (fun _ => 1) 1 2
    (fun k => if k = 1 then some (fun _ => 0) else none)
    (fun k => if k = 2 then some (fun _ => 0) else none)
    (scalarGaussian 1) (scalarGaussian (1 / 2)) (1 / 2) (1 / 2) true true _ rfl
    (fun k => if k = 0 then some (fun _ => 3) else none) (some [[]])).1⟩

end TransformBtwRobotsUnaryFactorEM

namespace Point2

variable {K : Type} [LinearOrderedField K]

/-- An exact square root returns `r` on `r * r` when `0 ≤ r`. -/
theorem sqrt_mul_self_of_exact (sqrt : K → K)
    (hsqrt : ∀ x : K, 0 ≤ x → 0 ≤ sqrt x ∧ sqrt x * sqrt x = x)
    (r a : K) (hr : 0 ≤ r) (ha : a = r * r) : sqrt a = r := by
  have h0 : 0 ≤ a := by rw [ha]; exact mul_self_nonneg r
  obtain ⟨h1, h2⟩ := hsqrt a h0
  rw [ha] at h2
  rw [ha]
  rw [ha] at h1
  exact (mul_self_inj h1 hr).mp h2

/-- C4: when the centres are at least `1e-9` apart, the radii are not negative
and `CircleCircleIntersection(c1, r1, c2, r2, tol)` returns two points, each of
them is at distance `r1` from `c1` and at distance `r2` from `c2`, the square
root being exact. -/
theorem CircleCircleIntersection_on_circles (sqrt : K → K)
    (hsqrt : ∀ x : K, 0 ≤ x → 0 ≤ sqrt x ∧ sqrt x * sqrt x = x)
    (defaultTol : K) (c1 : Point2 K) (r1 : K) (c2 : Point2 K) (r2 tol : K)
    (hr1 : 0 ≤ r1) (hr2 : 0 ≤ r2) (hd : 1e-9 ≤ dist sqrt c1 c2)
    (hlen : (CircleCircleIntersection sqrt defaultTol c1 r1 c2 r2 tol).length = 2) :
    ∀ p ∈ CircleCircleIntersection sqrt defaultTol c1 r1 c2 r2 tol,
      dist sqrt c1 p = r1 ∧ dist sqrt c2 p = r2 := by
  -- the distance between the centres
  set D : K := (c2.x - c1.x) * (c2.x - c1.x) + (c2.y - c1.y) * (c2.y - c1.y) with hD
  have hD0 : 0 ≤ D := add_nonneg (mul_self_nonneg _) (mul_self_nonneg _)
  have hdD : dist sqrt c1 c2 = sqrt D := rfl
  set d : K := sqrt D with hdef
  rw [hdD] at hd
  have hdpos : 0 < d := lt_of_lt_of_le lit_tiny_pos hd
  have hdd : d * d = D := (hsqrt D hD0).2
  have hd0 : d ≠ 0 := ne_of_gt hdpos
  -- the offsets
  set R_d : K := r1 * (1.0 / d) with hRd
  set r_d : K := r2 * (1.0 / d) with hrd
  set f : K := 0.5 + 0.5 * (R_d * R_d - r_d * r_d) with hf
  set h2 : K := R_d * R_d - f * f with hh2
  have hres : CircleCircleIntersection sqrt defaultTol c1 r1 c2 r2 tol =
      CircleCircleIntersection_pts c1 c2
        (if h2 < -defaultTol then none else if h2 < defaultTol then some ⟨f, 0.0⟩
          else some ⟨f, sqrt h2⟩) := by
    simp only [CircleCircleIntersection, CircleCircleIntersection_traced, hdD,
      if_neg (not_lt.mpr hd), CircleCircleIntersection_fh]
  rw [hres] at hlen ⊢
  by_cases c1' : h2 < -defaultTol
  · rw [if_pos c1'] at hlen; simp [CircleCircleIntersection_pts] at hlen
  rw [if_neg c1'] at hlen ⊢
  by_cases c2' : h2 < defaultTol
  · rw [if_pos c2'] at hlen; simp [CircleCircleIntersection_pts, lit_zero] at hlen
  rw [if_neg c2'] at hlen ⊢
  have hh0 : 0 ≤ h2 := by
    rcases le_total 0 defaultTol with h | h
    · linarith [not_lt.mp c2']
    · linarith [not_lt.mp c1']
  obtain ⟨hs0, hss⟩ := hsqrt h2 hh0
  set h : K := sqrt h2 with hh
  by_cases hz : h = 0.0
  · simp [CircleCircleIntersection_pts, hz] at hlen
  have hRdd : R_d * d = r1 := by rw [hRd, lit_one]; field_simp
  have hrdd : r_d * d = r2 := by rw [hrd, lit_one]; field_simp
  have hfe : 2 * f = 1 + R_d * R_d - r_d * r_d := by rw [hf, lit_half]; ring
  have hhe : h * h = R_d * R_d - f * f := hss
  have e1 : r1 * r1 = (f * f + h * h) * D := by
    rw [← hRdd, hhe, ← hdd]; ring
  have e2 : r2 * r2 = ((f - 1) * (f - 1) + h * h) * D := by
    rw [← hrdd, hhe, ← hdd]; linear_combination (-(d * d)) * hfe
  intro p hp
  simp only [CircleCircleIntersection_pts, if_neg hz, List.mem_cons, List.mem_singleton,
    List.mem_nil_iff, or_false] at hp
  rcases hp with hp | hp <;> subst hp <;> constructor
  · apply sqrt_mul_self_of_exact sqrt hsqrt _ _ hr1
    simp only [sub, add, smul]
    rw [e1, hD]; ring
  · apply sqrt_mul_self_of_exact sqrt hsqrt _ _ hr2
    simp only [sub, add, smul]
    rw [e2, hD]; ring
  · apply sqrt_mul_self_of_exact sqrt hsqrt _ _ hr1
    simp only [sub, add, smul]
    rw [e1, hD]; ring
  · apply sqrt_mul_self_of_exact sqrt hsqrt _ _ hr2
    simp only [sub, add, smul]
    rw [e2, hD]; ring


/-- The square root of the reals is exact. -/
theorem real_sqrt_exact : ∀ x : ℝ, 0 ≤ x → 0 ≤ Real.sqrt x ∧ Real.sqrt x * Real.sqrt x = x :=
  fun x hx => ⟨Real.sqrt_nonneg x, Real.mul_self_sqrt hx⟩

/-- Over the reals, the points `(0, 0)` and `(1, 0)` are at distance 1. -/
theorem dist_unit_real : dist Real.sqrt (⟨0, 0⟩ : Point2 ℝ) ⟨1, 0⟩ = 1 := by
  simp [dist, norm, sub]

/-- C4 at the unit circles around `(0, 0)` and `(1, 0)`, over the reals: two
points are returned and both lie on both circles. -/
theorem CircleCircleIntersection_on_circles_witness :
    ∃ p q, CircleCircleIntersection Real.sqrt (1e-9) (⟨0, 0⟩ : Point2 ℝ) 1 ⟨1, 0⟩ 1 1e-9 = [p, q] ∧
      (dist Real.sqrt ⟨0, 0⟩ p = 1 ∧ dist Real.sqrt ⟨1, 0⟩ p = 1) ∧
      (dist Real.sqrt ⟨0, 0⟩ q = 1 ∧ dist Real.sqrt ⟨1, 0⟩ q = 1) := by
  have hlen : (CircleCircleIntersection Real.sqrt (1e-9) (⟨0, 0⟩ : Point2 ℝ) 1 ⟨1, 0⟩ 1
      1e-9).length = 2 := by
    have h34 : ¬ Real.sqrt (3 / 4) = 0 := by
      rw [Real.sqrt_eq_zero']; norm_num
    simp only [CircleCircleIntersection, CircleCircleIntersection_traced, dist_unit_real,
      CircleCircleIntersection_fh, CircleCircleIntersection_pts]
    norm_num [h34]
  have key := CircleCircleIntersection_on_circles Real.sqrt real_sqrt_exact (1e-9)
    ⟨0, 0⟩ 1 ⟨1, 0⟩ 1 1e-9 (by norm_num) (by norm_num)
    (by rw [dist_unit_real]; norm_num) hlen
  obtain ⟨p, q, hpq⟩ := List.length_eq_two.mp hlen
  exact ⟨p, q, hpq, key p (by rw [hpq]; simp), key q (by rw [hpq]; simp)⟩

/-- C5: for `tol > 0`, with `f = 0.5 + 0.5*(R_d^2 - r_d^2)` and
`h2 = R_d^2 - f^2`: when `-tol ≤ h2 < tol` the offsets are `(f, 0)` and the list
holds the one point `c1 + f*(c2 - c1)`; when `h2 < -tol` there are no offsets and
the list is empty; when `tol ≤ h2` the list holds two points. -/
theorem CircleCircleIntersection_touching (sqrt : K → K)
    (hsqrt : ∀ x : K, 0 < x → sqrt x ≠ 0) (R_d r_d tol : K) (htol : 0 < tol)
    (c1 c2 : Point2 K) :
    let f := 0.5 + 0.5 * (R_d ^ 2 - r_d ^ 2)
    let h2 := R_d ^ 2 - f ^ 2
    let fh := CircleCircleIntersection_fh sqrt R_d r_d tol
    (-tol ≤ h2 → h2 < tol →
        fh = some ⟨f, 0⟩ ∧
        CircleCircleIntersection_pts c1 c2 fh = [add c1 (smul f (sub c2 c1))]) ∧
    (h2 < -tol → fh = none ∧ CircleCircleIntersection_pts c1 c2 fh = []) ∧
    (tol ≤ h2 → (CircleCircleIntersection_pts c1 c2 fh).length = 2) := by
  intro f h2 fh
  have hf : (0.5 + 0.5 * (R_d * R_d - r_d * r_d) : K) = f := by
    simp only [f]; ring
  have hh : R_d * R_d - f * f = h2 := by simp only [h2]; ring
  have hfh : fh = if h2 < -tol then none else if h2 < tol then some ⟨f, 0.0⟩
      else some ⟨f, sqrt h2⟩ := by
    simp only [fh, CircleCircleIntersection_fh, hf, hh]
  refine ⟨?_, ?_, ?_⟩
  · intro h1 h3
    have e : fh = some ⟨f, 0⟩ := by
      rw [hfh, if_neg (not_lt.mpr h1), if_pos h3]; norm_num
    refine ⟨e, ?_⟩
    rw [e]; simp [CircleCircleIntersection_pts, lit_zero]
  · intro h1
    have e : fh = none := by rw [hfh, if_pos h1]
    refine ⟨e, ?_⟩
    rw [e]; rfl
  · intro h1
    have hpos : 0 < h2 := lt_of_lt_of_le htol h1
    have e : fh = some ⟨f, sqrt h2⟩ := by
      rw [hfh, if_neg (not_lt.mpr (by linarith)), if_neg (not_lt.mpr h1)]
    rw [e]
    have := hsqrt h2 hpos
    simp [CircleCircleIntersection_pts, lit_zero, this]

/-- C5 over the reals at `R_d = r_d = 1/2`, two touching circles, and
`tol = 1e-9`. -/
theorem CircleCircleIntersection_touching_witness :
    let f : ℝ := 0.5 + 0.5 * ((1 / 2 : ℝ) ^ 2 - (1 / 2 : ℝ) ^ 2)
    let h2 : ℝ := (1 / 2 : ℝ) ^ 2 - f ^ 2
    let fh := CircleCircleIntersection_fh Real.sqrt (1 / 2 : ℝ) (1 / 2) 1e-9
    (-1e-9 ≤ h2 → h2 < 1e-9 →
        fh = some ⟨f, 0⟩ ∧
        CircleCircleIntersection_pts ⟨0, 0⟩ ⟨1, 0⟩ fh
          = [add ⟨0, 0⟩ (smul f (sub ⟨1, 0⟩ ⟨0, 0⟩))]) ∧
    (h2 < -1e-9 → fh = none ∧ CircleCircleIntersection_pts ⟨0, 0⟩ ⟨1, 0⟩ fh = []) ∧
    (1e-9 ≤ h2 → (CircleCircleIntersection_pts ⟨0, 0⟩ ⟨1, 0⟩ fh).length = 2) :=
  CircleCircleIntersection_touching Real.sqrt
    (fun _ hx => Real.sqrt_ne_zero'.mpr hx) (1 / 2) (1 / 2) 1e-9 (by norm_num) ⟨0, 0⟩ ⟨1, 0⟩

/-- The sign of `h2`, the squared perpendicular offset: it is negative exactly
when the centres are further apart than `R + r` or closer than `|R - r|`. -/
theorem h2_neg_iff (R r d : K) (hR : 0 ≤ R) (hr : 0 ≤ r) (hd : 0 < d) :
    (R / d) ^ 2 - (1 / 2 + 1 / 2 * ((R / d) ^ 2 - (r / d) ^ 2)) ^ 2 < 0 ↔
      (d > R + r ∨ d < |R - r|) := by
  have hd0 : d ≠ 0 := ne_of_gt hd
  have key : (R / d) ^ 2 - (1 / 2 + 1 / 2 * ((R / d) ^ 2 - (r / d) ^ 2)) ^ 2
      = ((R + r - d) * (r + d - R) * (d + R - r)) * ((d + R + r) / (4 * d ^ 4)) := by
    field_simp
    ring
  have hpos : 0 < (d + R + r) / (4 * d ^ 4) := by positivity
  rw [key, mul_neg_iff]
  have hn : ¬ ((d + R + r) / (4 * d ^ 4) < 0) := not_lt.mpr hpos.le
  simp only [hn, and_false, false_or, hpos, and_true, lt_abs, neg_sub]
  constructor
  · intro h
    by_contra hcon
    push_neg at hcon
    obtain ⟨h1, h2, h3⟩ := hcon
    have a : 0 ≤ R + r - d := by linarith
    have b : 0 ≤ r + d - R := by linarith
    have c : 0 ≤ d + R - r := by linarith
    have := mul_nonneg (mul_nonneg a b) c
    linarith
  · rintro (h | h | h)
    · have a : R + r - d < 0 := by linarith
      have b : 0 < r + d - R := by linarith
      have c : 0 < d + R - r := by linarith
      exact mul_neg_of_neg_of_pos (mul_neg_of_neg_of_pos a b) c
    · have a : 0 < R + r - d := by linarith
      have b : r + d - R < 0 := by linarith
      have c : 0 < d + R - r := by linarith
      exact mul_neg_of_neg_of_pos (mul_neg_of_pos_of_neg a b) c
    · have a : 0 < R + r - d := by linarith
      have b : 0 < r + d - R := by linarith
      have c : d + R - r < 0 := by linarith
      exact mul_neg_of_pos_of_neg (mul_pos a b) c

/-- C6, as the code has it: for `R ≥ 0`, `r ≥ 0` and `d > 0`, `h2 < 0` holds
exactly when `d > R + r` or `d < |R - r|`, and so
`CircleCircleIntersection(R/d, r/d, 0)` returns none exactly then. -/
theorem CircleCircleIntersection_none_iff (sqrt : K → K) (R r d : K)
    (hR : 0 ≤ R) (hr : 0 ≤ r) (hd : 0 < d) :
    (CircleCircleIntersection_fh sqrt (R / d) (r / d) 0 = none ↔
      (d > R + r ∨ d < |R - r|)) ∧
    ((R / d) ^ 2 - (0.5 + 0.5 * ((R / d) ^ 2 - (r / d) ^ 2)) ^ 2 < 0 ↔
      (d > R + r ∨ d < |R - r|)) := by
  have h := h2_neg_iff R r d hR hr hd
  rw [← lit_half] at h
  refine ⟨?_, h⟩
  rw [← h]
  have hh : R / d * (R / d) - (0.5 + 0.5 * (R / d * (R / d) - r / d * (r / d))) *
      (0.5 + 0.5 * (R / d * (R / d) - r / d * (r / d)))
      = (R / d) ^ 2 - (0.5 + 0.5 * ((R / d) ^ 2 - (r / d) ^ 2)) ^ 2 := by ring
  simp only [CircleCircleIntersection_fh, hh, neg_zero]
  by_cases hn : (R / d) ^ 2 - (0.5 + 0.5 * ((R / d) ^ 2 - (r / d) ^ 2)) ^ 2 < 0
  · simp [hn]
  · simp only [hn, if_false, iff_false]
    exact Option.some_ne_none _

/-- C6, as the code has it, at `R = 1`, `r = 5`, `d = 1` over the rationals. -/
theorem CircleCircleIntersection_none_iff_witness :
    (CircleCircleIntersection_fh sqrtQ ((1 : ℚ) / 1) (5 / 1) 0 = none ↔
      ((1 : ℚ) > 1 + 5 ∨ (1 : ℚ) < |1 - 5|)) ∧
    (((1 : ℚ) / 1) ^ 2 - (0.5 + 0.5 * (((1 : ℚ) / 1) ^ 2 - ((5 : ℚ) / 1) ^ 2)) ^ 2 < 0 ↔
      ((1 : ℚ) > 1 + 5 ∨ (1 : ℚ) < |1 - 5|)) :=
  CircleCircleIntersection_none_iff sqrtQ 1 5 1 (by norm_num) (by norm_num) (by norm_num)

/-- C6 fails as stated: for `R = 1`, `r = 5`, `d = 1` (the first circle lies
inside the second one) `h2` is negative and no offsets are returned, although
neither `d > R + r` nor `d < R - r` holds. -/
theorem CircleCircleIntersection_none_inside :
    (0 : ℚ) ≤ 1 ∧ (0 : ℚ) ≤ 5 ∧ (0 : ℚ) < 1 ∧
    ((1 : ℚ) / 1) ^ 2 - (0.5 + 0.5 * (((1 : ℚ) / 1) ^ 2 - ((5 : ℚ) / 1) ^ 2)) ^ 2 < 0 ∧
    CircleCircleIntersection_fh sqrtQ ((1 : ℚ) / 1) (5 / 1) 0 = none ∧
    ¬ ((1 : ℚ) > 1 + 5 ∨ (1 : ℚ) < 1 - 5) := by
  norm_num [CircleCircleIntersection_fh]

/-- C7: when the centres are less than `1e-9` apart the list is empty, and the
normalisation `1.0/d` is evaluated, if at all, with the distance `d` of the
centres, which is then at least `1e-9` and not zero. -/
theorem CircleCircleIntersection_coincident (sqrt : K → K) (defaultTol : K)
    (c1 : Point2 K) (r1 : K) (c2 : Point2 K) (r2 tol : K) :
    (dist sqrt c1 c2 < 1e-9 →
        CircleCircleIntersection sqrt defaultTol c1 r1 c2 r2 tol = []) ∧
    (∀ d ∈ (CircleCircleIntersection_traced sqrt defaultTol c1 r1 c2 r2 tol).1,
        d = dist sqrt c1 c2 ∧ 1e-9 ≤ d ∧ d ≠ 0) := by
  constructor
  · intro h
    simp [CircleCircleIntersection, CircleCircleIntersection_traced, h]
  · intro d hd
    by_cases h : dist sqrt c1 c2 < 1e-9
    · simp [CircleCircleIntersection_traced, h] at hd
    · simp only [CircleCircleIntersection_traced, if_neg h, List.mem_singleton] at hd
      have h9 : (0 : K) < 1e-9 := lit_tiny_pos
      subst hd
      have hge := not_lt.mp h
      exact ⟨rfl, hge, ne_of_gt (lt_of_lt_of_le h9 hge)⟩

/-- C7 at two circles around the origin, over the reals. -/
theorem CircleCircleIntersection_coincident_witness :
    CircleCircleIntersection Real.sqrt (1e-9) (⟨0, 0⟩ : Point2 ℝ) 1 ⟨0, 0⟩ 2 1e-9 = [] :=
  (CircleCircleIntersection_coincident Real.sqrt (1e-9) (⟨0, 0⟩ : Point2 ℝ) 1 ⟨0, 0⟩ 2 1e-9).1
    (by simp only [dist, norm, sub, sub_self, mul_zero, add_zero, Real.sqrt_zero]; norm_num)

end Point2

/-- The vectors under addition satisfy the laws of a Lie type. -/
theorem vectorLie_isLieGroup (n : Nat) : (vectorLie n).IsLieGroup where
  compose_assoc := by intro a b c; funext i; simp [vectorLie, add_assoc]
  identity_compose := by intro a; funext i; simp [vectorLie]
  inverse_compose := by intro a; funext i; simp [vectorLie]
  between_eq := by intro a b; rfl
  Logmap_identity := by simp [vectorLie, zero]
  localCoordinates_eq := by intro a b; rfl

/-- In a Lie type, `a.between(a.compose(z))` is `z`. -/
theorem LieOps.IsLieGroup.between_compose {K T : Type} [LinearOrderedField K]
    {L : LieOps K T} (hL : L.IsLieGroup) (a z : T) :
    L.between a (L.compose a z) = z := by
  rw [hL.between_eq, ← hL.compose_assoc, hL.inverse_compose, hL.identity_compose]

/-- In a Lie type, `a.between(a)` is the identity. -/
theorem LieOps.IsLieGroup.between_self {K T : Type} [LinearOrderedField K]
    {L : LieOps K T} (hL : L.IsLieGroup) (a : T) :
    L.between a a = L.identity := by
  rw [hL.between_eq, hL.inverse_compose]

namespace Reconstruction
variable {K Pose3 : Type} [LinearOrderedField K]

/-- C8: whichever Jacobians are asked for, the error that
`Reconstruction::evaluateError` returns is `Logmap((gk * Expmap(h*xik))^-1 * gk1)`,
and it is the zero 6-vector when `gk1 = gk * Expmap(h*xik)`. -/
theorem evaluateError_reconstruction (P : LieOps K Pose3) (hP : P.IsLieGroup)
    (hDim : P.Dim = 6) (dExpInv_exp : Vector K → Matrix K) (self : Reconstruction K)
    (gk1 gk : Pose3) (xik : Vector K) (H1 H2 H3 : Bool) :
    (evaluateError P dExpInv_exp self gk1 gk xik H1 H2 H3).1 =
      P.Logmap (P.compose (P.inverse (P.compose gk (P.Expmap (Vector.scale self.h_ xik)))) gk1) ∧
    (gk1 = P.compose gk (P.Expmap (Vector.scale self.h_ xik)) →
      (evaluateError P dExpInv_exp self gk1 gk xik H1 H2 H3).1 = [0, 0, 0, 0, 0, 0]) := by
  have e : (evaluateError P dExpInv_exp self gk1 gk xik H1 H2 H3).1 =
      P.Logmap (P.between (P.compose gk (P.Expmap (Vector.scale self.h_ xik))) gk1) := rfl
  refine ⟨by rw [e, hP.between_eq], ?_⟩
  intro h
  rw [e, h, hP.between_self, hP.Logmap_identity, hDim]
  rfl

/-- C8 over the 6-vectors, with `h = 1/100` and every Jacobian asked for. -/
theorem evaluateError_reconstruction_witness :
    (evaluateError (vectorLie 6) (fun _ => []) (create 6 2 1 0 (1 / 100) 1000)
      ((vectorLie 6).compose (fun _ => 100)
        ((vectorLie 6).Expmap (Vector.scale (1 / 100) [0, 0, 1, 0, 0, 30])))
      (fun _ => 100) [0, 0, 1, 0, 0, 30] true true true).1 = [0, 0, 0, 0, 0, 0] :=
  (evaluateError_reconstruction (vectorLie 6) (vectorLie_isLieGroup 6) rfl (fun _ => [])
    (create 6 2 1 0 (1 / 100) 1000)
    ((vectorLie 6).compose (fun _ => 100)
      ((vectorLie 6).Expmap (Vector.scale (1 / 100) [0, 0, 1, 0, 0, 30])))
    (fun _ => 100) [0, 0, 1, 0, 0, 30] true true true).2 rfl

end Reconstruction

namespace BetweenFactor
variable {K T : Type} [LinearOrderedField K]

/-- C10: whichever Jacobians are asked for, `BetweenFactor::evaluateError(p1, p2)`
is `measured.localCoordinates(p1.between(p2))`, and at `p2 = p1.compose(measured)`
it is the zero vector. -/
theorem evaluateError_between (L : LieOps K T) (hL : L.IsLieGroup) (self : BetweenFactor K T)
    (p1 p2 : T) (H1 H2 : Bool) :
    (evaluateError L self p1 p2 H1 H2).1 = L.localCoordinates self.measured_ (L.between p1 p2) ∧
    (evaluateError L self p1 (L.compose p1 self.measured_) H1 H2).1 = zero L.Dim := by
  refine ⟨rfl, ?_⟩
  show L.localCoordinates self.measured_ (L.between p1 (L.compose p1 self.measured_)) = _
  rw [hL.between_compose, hL.localCoordinates_eq, hL.between_self, hL.Logmap_identity]

/-- C10 over the 2-vectors, with the measurement `(5, 5)`. -/
theorem evaluateError_between_witness :
    (evaluateError (vectorLie 2) ⟨1, 2, .Unit_Create 2, fun _ => 5⟩ (fun _ => 1) (fun _ => 3)
        true false).1
      = (vectorLie 2).localCoordinates (fun _ => 5) ((vectorLie 2).between (fun _ => 1) (fun _ => 3)) ∧
    (evaluateError (vectorLie 2) ⟨1, 2, .Unit_Create 2, fun _ => 5⟩ (fun _ => 1)
        ((vectorLie 2).compose (fun _ => 1) (fun _ => 5)) true false).1 = zero 2 :=
  evaluateError_between (vectorLie 2) (vectorLie_isLieGroup 2)
    ⟨1, 2, .Unit_Create 2, fun _ => 5⟩ (fun _ => 1) (fun _ => 3) true false

end BetweenFactor

/-! ## Theorems on SmartRangeFactor, Factor and the indicator probabilities -/

/-- The stand-in `sqrtQ` is exact on the squares of rationals. -/
theorem sqrtQ_mul_self (q : ℚ) (hq : 0 ≤ q) : sqrtQ (q * q) = q := by
  have hnum : 0 ≤ q.num := Rat.num_nonneg.mpr hq
  unfold sqrtQ
  rw [Rat.mul_self_num, Rat.mul_self_den]
  have h1 : (q.num * q.num).toNat = q.num.toNat * q.num.toNat := by
    apply Int.ofNat.inj
    simp only [Int.ofNat_eq_coe, Nat.cast_mul]
    rw [Int.toNat_of_nonneg hnum, Int.toNat_of_nonneg (mul_nonneg hnum hnum)]
  rw [h1, Nat.sqrt_eq, Nat.sqrt_eq]
  have h2 : ((q.num.toNat : ℕ) : ℚ) = (q.num : ℚ) := by
    have : ((q.num.toNat : ℕ) : ℤ) = q.num := Int.toNat_of_nonneg hnum
    exact_mod_cast this
  rw [h2]
  exact Rat.num_div_den q

/-- Picking the first or the last entry of a list that is not empty gives an
entry of the list. -/
theorem pick_front_or_back {A : Type} (ints : List A) (hne : ints ≠ []) (first : A → A → Bool) :
    ∃ p, (match ints.head?, ints.getLast? with
      | some p1, some p2 => Except.ok (if first p1 p2 then p1 else p2)
      | _, _ => Except.error (Exception.message "intersections.front() of an empty list"))
        = Except.ok p ∧ p ∈ ints := by
  cases ints with
  | nil => exact absurd rfl hne
  | cons a t =>
    have h1 : (a :: t).head? = some a := rfl
    have h2 : (a :: t).getLast? = some ((a :: t).getLast hne) := List.getLast?_eq_getLast _ hne
    rw [h1, h2]
    refine ⟨_, rfl, ?_⟩
    split
    · exact List.mem_cons_self a t
    · exact List.getLast_mem hne

namespace SmartRangeFactor

variable {K : Type} [LinearOrderedField K]

/-- What a sequence of `addRange` calls does to any factor: the keys and the
measurements are appended in call order, `variance_` stays, and after at least
one call the noise model is the isotropic model of dimension 1 whose variance is
the number of keys times `variance_`. -/
theorem foldl_addRange (calls : List (Key × K)) (f0 : SmartRangeFactor K) :
    (calls.foldl (fun f c => addRange f c.1 c.2) f0).keys_ = f0.keys_ ++ calls.map Prod.fst ∧
    (calls.foldl (fun f c => addRange f c.1 c.2) f0).measurements_
      = f0.measurements_ ++ calls.map Prod.snd ∧
    (calls.foldl (fun f c => addRange f c.1 c.2) f0).variance_ = f0.variance_ ∧
    (calls ≠ [] → (calls.foldl (fun f c => addRange f c.1 c.2) f0).noiseModel_
      = .Isotropic_Variance 1 (((f0.keys_.length + calls.length : Nat) : K) * f0.variance_)) := by
  induction calls generalizing f0 with
  | nil => simp
  | cons c cs ih =>
    obtain ⟨h1, h2, h3, h4⟩ := ih (addRange f0 c.1 c.2)
    have a1 : (addRange f0 c.1 c.2).keys_ = f0.keys_ ++ [c.1] := rfl
    have a2 : (addRange f0 c.1 c.2).measurements_ = f0.measurements_ ++ [c.2] := rfl
    have a3 : (addRange f0 c.1 c.2).variance_ = f0.variance_ := rfl
    have a4 : (addRange f0 c.1 c.2).noiseModel_
        = .Isotropic_Variance 1 (((f0.keys_ ++ [c.1]).length : K) * f0.variance_) := rfl
    rw [List.foldl_cons]
    refine ⟨?_, ?_, ?_, ?_⟩
    · rw [h1, a1]; simp
    · rw [h2, a2]; simp
    · rw [h3, a3]
    · intro _
      by_cases hcs : cs = []
      · subst hcs
        simp only [List.foldl_nil, List.length_cons, List.length_nil]
        rw [a4, List.length_append]
        rfl
      · rw [h4 hcs, a1, a3]
        have e : (f0.keys_ ++ [c.1]).length + cs.length
            = f0.keys_.length + (c :: cs).length := by
          simp only [List.length_append, List.length_cons, List.length_nil]
          omega
        rw [e]

/-- C11: after `k ≥ 1` calls of `addRange` on the factor constructed with standard
deviation `s`, the key list and the measurement list have length `k`, the `i`-th
key is paired with the `i`-th measurement in call order, and the noise model is
the isotropic model of dimension 1 and variance `k * s^2`. -/
theorem addRange_variance_adds (s : K) (calls : List (Key × K)) (f : SmartRangeFactor K)
    (hf : f = calls.foldl (fun f c => addRange f c.1 c.2) (create s))
    (hk : 1 ≤ calls.length) :
    f.keys_.length = calls.length ∧ f.measurements_.length = calls.length ∧
    f.keys_.zip f.measurements_ = calls ∧
    f.noiseModel_ = .Isotropic_Variance 1 ((calls.length : K) * s ^ 2) := by
  obtain ⟨h1, h2, _, h4⟩ := foldl_addRange calls (create s)
  rw [← hf] at h1 h2 h4
  have hne : calls ≠ [] := by
    intro h; rw [h] at hk; simp at hk
  have e1 : f.keys_ = calls.map Prod.fst := by rw [h1]; rfl
  have e2 : f.measurements_ = calls.map Prod.snd := by rw [h2]; rfl
  refine ⟨by rw [e1, List.length_map], by rw [e2, List.length_map], ?_, ?_⟩
  · rw [e1, e2, ← List.unzip_fst, ← List.unzip_snd, List.zip_unzip]
  · rw [h4 hne]
    simp [create, pow_two]

/-- C11 at two calls on the factor of standard deviation 3: the variance is
`2 * 3^2`. -/
theorem addRange_variance_adds_witness :
    (addRange (addRange (create (3 : ℚ)) 7 10) 8 20).keys_.length = 2 ∧
    (addRange (addRange (create (3 : ℚ)) 7 10) 8 20).measurements_.length = 2 ∧
    (addRange (addRange (create (3 : ℚ)) 7 10) 8 20).keys_.zip
      (addRange (addRange (create (3 : ℚ)) 7 10) 8 20).measurements_ = [(7, 10), (8, 20)] ∧
    (addRange (addRange (create (3 : ℚ)) 7 10) 8 20).noiseModel_
      = .Isotropic_Variance 1 ((2 : ℕ) * (3 : ℚ) ^ 2) :=
  addRange_variance_adds 3 [(7, 10), (8, 20)] _ rfl (by decide)

/-- Setting the entries `0 .. n-1` of a list to `z` keeps its length, puts `z` at
each of these places that the list has, and keeps the other entries. -/
theorem foldl_set_range {A : Type} (z : A) (n : Nat) (Hs : List A) :
    ((List.range n).foldl (fun Hs j => Hs.set j z) Hs).length = Hs.length ∧
    (∀ j, j < n → j < Hs.length →
      ((List.range n).foldl (fun Hs j => Hs.set j z) Hs)[j]? = some z) ∧
    (∀ j, n ≤ j → ((List.range n).foldl (fun Hs j => Hs.set j z) Hs)[j]? = Hs[j]?) := by
  induction n with
  | zero => simp
  | succ n ih =>
    obtain ⟨h1, h2, h3⟩ := ih
    rw [List.range_succ, List.foldl_append]
    simp only [List.foldl_cons, List.foldl_nil]
    refine ⟨by rw [List.length_set, h1], ?_, ?_⟩
    · intro j hj hlen
      by_cases e : n = j
      · subst e
        rw [List.getElem?_set_self]
        rw [h1]; exact hlen
      · rw [List.getElem?_set_ne e]
        exact h2 j (by omega) hlen
    · intro j hj
      rw [List.getElem?_set_ne (by omega)]
      exact h3 j (by omega)

/-- C12: a factor built by fewer than three `addRange` calls has
`unwhitenedError` return the zero vector of length 1, the dimension of its noise
model, whatever the values `x` are (it returns the same for all of them and never
raises); when Jacobians are passed, each of the first `n` is set to the zero
matrix `zeros(3, 1)` and the others are kept. -/
theorem unwhitenedError_few {Pose2 : Type} (sqrt : K → K) (defaultTol : K)
    (P : Pose2Ops K Pose2) (s : K) (calls : List (Key × K)) (f : SmartRangeFactor K)
    (hf : f = calls.foldl (fun f c => addRange f c.1 c.2) (create s))
    (hn : calls.length < 3) (x : Values Pose2) (H : Option (List (Matrix K))) :
    ∃ H', unwhitenedError sqrt defaultTol P f x H = .ok ([0], H') ∧
      ([0] : Vector K).length = f.noiseModel_.dim ∧
      (∀ y, unwhitenedError sqrt defaultTol P f y H = unwhitenedError sqrt defaultTol P f x H) ∧
      (H = none → H' = none) ∧
      (∀ Hs, H = some Hs → calls.length ≤ Hs.length →
        ∃ Hs', H' = some Hs' ∧ Hs'.length = Hs.length ∧
          (∀ j, j < calls.length → Hs'[j]? = some [[0], [0], [0]]) ∧
          (∀ j, calls.length ≤ j → Hs'[j]? = Hs[j]?)) := by
  obtain ⟨h1, _, _, h4⟩ := foldl_addRange calls (create s)
  rw [← hf] at h1 h4
  have hlen : f.keys_.length = calls.length := by
    rw [h1]; simp [create]
  have hlt : f.keys_.length < 3 := by rw [hlen]; exact hn
  have hval : ∀ y, unwhitenedError sqrt defaultTol P f y H = .ok ([0],
      H.map (fun Hs => (List.range calls.length).foldl
        (fun Hs j => Hs.set j [[0], [0], [0]]) Hs)) := by
    intro y
    unfold unwhitenedError
    simp only [hlen, if_pos hn]
    rfl
  have hdim : f.noiseModel_.dim = 1 := by
    by_cases hc : calls = []
    · subst hc; rw [hf]; rfl
    · rw [h4 hc]; rfl
  refine ⟨_, hval x, by rw [hdim]; rfl, fun y => by rw [hval y, hval x], ?_, ?_⟩
  · intro h; rw [h]; rfl
  · intro Hs h hle
    obtain ⟨g1, g2, g3⟩ := foldl_set_range ([[0], [0], [0]] : Matrix K) calls.length Hs
    exact ⟨_, by rw [h]; rfl, g1, fun j hj => g2 j hj (by omega), g3⟩

/-- C12 at a factor with two ranges and values that hold no pose at all. -/
theorem unwhitenedError_few_witness :
    ∃ H', unwhitenedError sqrtQ (1e-9) (headingZeroPose2 sqrtQ)
        (addRange (addRange (create (3 : ℚ)) 7 10) 8 20) (fun _ => none)
        (some [[], [], [[5]]]) = .ok ([0], H') ∧
      ∃ Hs', H' = some Hs' ∧ Hs'.length = 3 ∧
        (∀ j, j < 2 → Hs'[j]? = some [[0], [0], [0]]) ∧
        (∀ j, 2 ≤ j → Hs'[j]? = [[], [], [[(5 : ℚ)]]][j]?) := by
  obtain ⟨H', h1, _, _, _, h5⟩ := unwhitenedError_few sqrtQ (1e-9) (headingZeroPose2 sqrtQ)
    3 [(7, 10), (8, 20)] _ rfl (by decide) (fun _ => none) (some [[], [], [[5]]])
  exact ⟨H', h1, h5 _ rfl (by decide)⟩

/-- The loop over the circles, started with a best pair `(fh, b)`: it ends with
that pair, every circle of the list having offsets `g` with `g.y ≤ fh.y`, or with
a circle of the list whose `h` is greater than `fh.y`, greater than the `h` of
every circle before it and not less than the `h` of every circle after it. -/
theorem foldl_bestPairStep_some (sqrt : K → K) (defaultTol : K) (circle1 : Circle2 K)
    (l : List (Circle2 K)) (fh : Point2 K) (b : Circle2 K) :
    (l.foldl (bestPairStep sqrt defaultTol circle1) (some (fh, b)) = some (fh, b) ∧
      ∀ c ∈ l, ∀ g, roundOffsets sqrt defaultTol circle1 c = some g → g.y ≤ fh.y) ∨
    ∃ fh2 b2 before after,
      l.foldl (bestPairStep sqrt defaultTol circle1) (some (fh, b)) = some (fh2, b2) ∧
      l = before ++ b2 :: after ∧
      roundOffsets sqrt defaultTol circle1 b2 = some fh2 ∧
      fh.y < fh2.y ∧
      (∀ c ∈ before, ∀ g, roundOffsets sqrt defaultTol circle1 c = some g → g.y < fh2.y) ∧
      (∀ c ∈ after, ∀ g, roundOffsets sqrt defaultTol circle1 c = some g → g.y ≤ fh2.y) := by
  induction l generalizing fh b with
  | nil => exact Or.inl ⟨rfl, by simp⟩
  | cons c l ih =>
    rw [List.foldl_cons]
    cases hc : roundOffsets sqrt defaultTol circle1 c with
    | none =>
      have hstep : bestPairStep sqrt defaultTol circle1 (some (fh, b)) c = some (fh, b) := by
        simp [bestPairStep, hc]
      rw [hstep]
      rcases ih fh b with ⟨h1, h2⟩ | ⟨fh2, b2, before, after, h1, h2, h3, h4, h5, h6⟩
      · refine Or.inl ⟨h1, ?_⟩
        intro c2 hc2 g hg
        rcases List.mem_cons.mp hc2 with e | e
        · rw [e, hc] at hg; cases hg
        · exact h2 c2 e g hg
      · refine Or.inr ⟨fh2, b2, c :: before, after, h1, by rw [h2]; rfl, h3, h4, ?_, h6⟩
        intro c2 hc2 g hg
        rcases List.mem_cons.mp hc2 with e | e
        · rw [e, hc] at hg; cases hg
        · exact h5 c2 e g hg
    | some g0 =>
      by_cases hgt : g0.y > fh.y
      · have hstep : bestPairStep sqrt defaultTol circle1 (some (fh, b)) c = some (g0, c) := by
          simp [bestPairStep, hc, hgt]
        rw [hstep]
        rcases ih g0 c with ⟨h1, h2⟩ | ⟨fh2, b2, before, after, h1, h2, h3, h4, h5, h6⟩
        · exact Or.inr ⟨g0, c, [], l, h1, rfl, hc, hgt, by simp, h2⟩
        · refine Or.inr ⟨fh2, b2, c :: before, after, h1, by rw [h2]; rfl, h3,
            lt_trans hgt h4, ?_, h6⟩
          intro c2 hc2 g hg
          rcases List.mem_cons.mp hc2 with e | e
          · rw [e, hc] at hg
            injection hg with hg
            rw [← hg]; exact h4
          · exact h5 c2 e g hg
      · have hstep : bestPairStep sqrt defaultTol circle1 (some (fh, b)) c = some (fh, b) := by
          simp [bestPairStep, hc, hgt]
        rw [hstep]
        have hle : g0.y ≤ fh.y := not_lt.mp hgt
        rcases ih fh b with ⟨h1, h2⟩ | ⟨fh2, b2, before, after, h1, h2, h3, h4, h5, h6⟩
        · refine Or.inl ⟨h1, ?_⟩
          intro c2 hc2 g hg
          rcases List.mem_cons.mp hc2 with e | e
          · rw [e, hc] at hg
            injection hg with hg
            rw [← hg]; exact hle
          · exact h2 c2 e g hg
        · refine Or.inr ⟨fh2, b2, c :: before, after, h1, by rw [h2]; rfl, h3, h4, ?_, h6⟩
          intro c2 hc2 g hg
          rcases List.mem_cons.mp hc2 with e | e
          · rw [e, hc] at hg
            injection hg with hg
            rw [← hg]; exact lt_of_le_of_lt hle h4
          · exact h5 c2 e g hg

/-- The loop over the circles, from the start: it ends without a best pair, no
circle of the list having offsets, or with the first circle of the list whose
`h` is the largest. -/
theorem bestPair_first_largest (sqrt : K → K) (defaultTol : K) (circle1 : Circle2 K)
    (l : List (Circle2 K)) :
    (bestPair sqrt defaultTol circle1 l = none ∧
      ∀ c ∈ l, roundOffsets sqrt defaultTol circle1 c = none) ∨
    ∃ fh b before after,
      bestPair sqrt defaultTol circle1 l = some (fh, b) ∧
      l = before ++ b :: after ∧
      roundOffsets sqrt defaultTol circle1 b = some fh ∧
      (∀ c ∈ before, ∀ g, roundOffsets sqrt defaultTol circle1 c = some g → g.y < fh.y) ∧
      (∀ c ∈ after, ∀ g, roundOffsets sqrt defaultTol circle1 c = some g → g.y ≤ fh.y) := by
  unfold bestPair
  induction l with
  | nil => exact Or.inl ⟨rfl, by simp⟩
  | cons c l ih =>
    rw [List.foldl_cons]
    cases hc : roundOffsets sqrt defaultTol circle1 c with
    | none =>
      have hstep : bestPairStep sqrt defaultTol circle1 none c = none := by
        simp [bestPairStep, hc]
      rw [hstep]
      rcases ih with ⟨h1, h2⟩ | ⟨fh, b, before, after, h1, h2, h3, h4, h5⟩
      · refine Or.inl ⟨h1, ?_⟩
        intro c2 hc2
        rcases List.mem_cons.mp hc2 with e | e
        · rw [e]; exact hc
        · exact h2 c2 e
      · refine Or.inr ⟨fh, b, c :: before, after, h1, by rw [h2]; rfl, h3, ?_, h5⟩
        intro c2 hc2 g hg
        rcases List.mem_cons.mp hc2 with e | e
        · rw [e, hc] at hg; cases hg
        · exact h4 c2 e g hg
    | some g0 =>
      have hstep : bestPairStep sqrt defaultTol circle1 none c = some (g0, c) := by
        simp [bestPairStep, hc]
      rw [hstep]
      rcases foldl_bestPairStep_some sqrt defaultTol circle1 l g0 c with
        ⟨h1, h2⟩ | ⟨fh2, b2, before, after, h1, h2, h3, h4, h5, h6⟩
      · exact Or.inr ⟨g0, c, [], l, h1, rfl, hc, by simp, h2⟩
      · refine Or.inr ⟨fh2, b2, c :: before, after, h1, by rw [h2]; rfl, h3, ?_, h6⟩
        intro c2 hc2 g hg
        rcases List.mem_cons.mp hc2 with e | e
        · rw [e, hc] at hg
          injection hg with hg
          rw [← hg]; exact h4
        · exact h5 c2 e g hg

/-- A circle has offsets in a round of the loop only when its centre is at least
`1e-9` away from the first centre, and they are what
`CircleCircleIntersection(R_d, r_d)` returns. -/
theorem roundOffsets_some (sqrt : K → K) (defaultTol : K) (circle1 it : Circle2 K)
    (fh : Point2 K) (h : roundOffsets sqrt defaultTol circle1 it = some fh) :
    1e-9 ≤ Point2.dist sqrt circle1.center it.center ∧
    Point2.CircleCircleIntersection_fh sqrt
      (circle1.radius / Point2.dist sqrt circle1.center it.center)
      (it.radius / Point2.dist sqrt circle1.center it.center) defaultTol = some fh := by
  unfold roundOffsets at h
  by_cases hd : Point2.dist sqrt circle1.center it.center < 1e-9
  · simp [hd] at h
  · simp only [hd, if_false] at h
    exact ⟨not_lt.mp hd, h⟩

/-- When the values hold a pose for every key and some circle has offsets against
the first one, `triangulate` returns a point of the list that
`CircleCircleIntersection(c1, c2, fh)` builds for the first circle and the circle
`best` whose `h = fh.y` is the largest: greater than that of every circle before
it in the list and not less than that of every circle after it. -/
theorem triangulate_picks_best {Pose2 : Type} (sqrt : K → K) (defaultTol : K)
    (P : Pose2Ops K Pose2) (self : SmartRangeFactor K) (x : Values Pose2)
    (circle1 : Circle2 K) (rest : List (Circle2 K))
    (hc : circles P self x = .ok (circle1 :: rest))
    (hex : ∃ c ∈ circle1 :: rest, ∃ g, roundOffsets sqrt defaultTol circle1 c = some g) :
    ∃ (before after : List (Circle2 K)) (best : Circle2 K) (fh p : Point2 K),
      circle1 :: rest = before ++ best :: after ∧
      1e-9 ≤ Point2.dist sqrt circle1.center best.center ∧
      Point2.CircleCircleIntersection_fh sqrt
        (circle1.radius / Point2.dist sqrt circle1.center best.center)
        (best.radius / Point2.dist sqrt circle1.center best.center) defaultTol = some fh ∧
      (∀ c ∈ before, ∀ g, roundOffsets sqrt defaultTol circle1 c = some g → g.y < fh.y) ∧
      (∀ c ∈ after, ∀ g, roundOffsets sqrt defaultTol circle1 c = some g → g.y ≤ fh.y) ∧
      triangulate sqrt defaultTol P self x = .ok p ∧
      p ∈ Point2.CircleCircleIntersection_pts circle1.center best.center (some fh) := by
  rcases bestPair_first_largest sqrt defaultTol circle1 (circle1 :: rest) with
    ⟨_, h2⟩ | ⟨fh, b, before, after, h1, h2, h3, h4, h5⟩
  · exfalso
    obtain ⟨c, hcm, g, hg⟩ := hex
    rw [h2 c hcm] at hg
    cases hg
  · obtain ⟨hd, hfh⟩ := roundOffsets_some sqrt defaultTol circle1 b fh h3
    have hne : Point2.CircleCircleIntersection_pts circle1.center b.center (some fh) ≠ [] := by
      unfold Point2.CircleCircleIntersection_pts
      simp only []
      split <;> simp
    obtain ⟨p, hp, hmem⟩ := pick_front_or_back _ hne
      (fun p1 p2 => decide ((winnerErrors sqrt (circle1 :: rest) p1 p2).1
        < (winnerErrors sqrt (circle1 :: rest) p1 p2).2))
    refine ⟨before, after, b, fh, p, h2, hd, hfh, h4, h5, ?_, hmem⟩
    rw [← hp]
    unfold triangulate
    rw [hc]
    simp only [bind, Except.bind, h1]
    split <;> simp_all

/-- The offsets that `CircleCircleIntersection(R_d, r_d, tol)` returns: `f` comes
with `h = 0` when `-tol ≤ h2 < tol` and with `h = sqrt(h2)` when `h2` is at
least `tol` and `-tol`. -/
theorem fh_cases (sqrt : K → K) (R_d r_d tol : K) (fh : Point2 K)
    (h : Point2.CircleCircleIntersection_fh sqrt R_d r_d tol = some fh) :
    fh.x = 1 / 2 + 1 / 2 * (R_d * R_d - r_d * r_d) ∧
    ((-tol ≤ R_d * R_d - fh.x * fh.x ∧ R_d * R_d - fh.x * fh.x < tol ∧ fh.y = 0) ∨
      (0 ≤ R_d * R_d - fh.x * fh.x ∧ tol ≤ R_d * R_d - fh.x * fh.x ∧
        fh.y = sqrt (R_d * R_d - fh.x * fh.x))) := by
  unfold Point2.CircleCircleIntersection_fh at h
  simp only [] at h
  rw [lit_half] at h
  by_cases c1 : R_d * R_d - (1 / 2 + 1 / 2 * (R_d * R_d - r_d * r_d)) *
      (1 / 2 + 1 / 2 * (R_d * R_d - r_d * r_d)) < -tol
  · rw [if_pos c1] at h; cases h
  rw [if_neg c1] at h
  by_cases c2 : R_d * R_d - (1 / 2 + 1 / 2 * (R_d * R_d - r_d * r_d)) *
      (1 / 2 + 1 / 2 * (R_d * R_d - r_d * r_d)) < tol
  · rw [if_pos c2] at h
    injection h with h
    subst h
    exact ⟨rfl, Or.inl ⟨not_lt.mp c1, c2, lit_zero⟩⟩
  · rw [if_neg c2] at h
    injection h with h
    subst h
    refine ⟨rfl, Or.inr ⟨?_, not_lt.mp c2, rfl⟩⟩
    rcases le_total 0 tol with ht | ht
    · linarith [not_lt.mp c2]
    · linarith [not_lt.mp c1]

/-- The point `c1 + f * (c2 - c1) + s * h * perp(c2 - c1)`, for `s * s = 1`, is
at distance `r1` from `c1` and `r2` from `c2` when `h * h = R_d^2 - f^2`,
`2 f = 1 + R_d^2 - r_d^2` and the radii are `R_d` and `r_d` times the distance of
the centres. -/
theorem offset_point_on_circles (sqrt : K → K)
    (hsqrt : ∀ x : K, 0 ≤ x → 0 ≤ sqrt x ∧ sqrt x * sqrt x = x)
    (c1 c2 : Point2 K) (d R_d r_d f h r1 r2 s : K)
    (hd : d * d = (c2.x - c1.x) * (c2.x - c1.x) + (c2.y - c1.y) * (c2.y - c1.y))
    (hR : R_d * d = r1) (hr : r_d * d = r2) (hr1 : 0 ≤ r1) (hr2 : 0 ≤ r2)
    (hf : 2 * f = 1 + R_d * R_d - r_d * r_d) (hh : h * h = R_d * R_d - f * f)
    (hs : s * s = 1) :
    Point2.dist sqrt c1
        ⟨c1.x + f * (c2.x - c1.x) + s * (h * -(c2.y - c1.y)),
         c1.y + f * (c2.y - c1.y) + s * (h * (c2.x - c1.x))⟩ = r1 ∧
    Point2.dist sqrt c2
        ⟨c1.x + f * (c2.x - c1.x) + s * (h * -(c2.y - c1.y)),
         c1.y + f * (c2.y - c1.y) + s * (h * (c2.x - c1.x))⟩ = r2 := by
  have e1 : r1 * r1 = (f * f + h * h) * (d * d) := by
    rw [← hR, hh]; ring
  have e2 : r2 * r2 = ((f - 1) * (f - 1) + h * h) * (d * d) := by
    rw [← hr, hh]; linear_combination (d * d) * hf
  constructor
  · apply Point2.sqrt_mul_self_of_exact sqrt hsqrt _ _ hr1
    simp only [Point2.sub]
    rw [e1, hd]
    linear_combination (h * h * ((c2.x - c1.x) * (c2.x - c1.x)
      + (c2.y - c1.y) * (c2.y - c1.y))) * hs
  · apply Point2.sqrt_mul_self_of_exact sqrt hsqrt _ _ hr2
    simp only [Point2.sub]
    rw [e2, hd]
    linear_combination (h * h * ((c2.x - c1.x) * (c2.x - c1.x)
      + (c2.y - c1.y) * (c2.y - c1.y))) * hs

/-- A circle whose centre is at least `1e-9` away from the first centre has, in
its round of the loop, the offsets that `CircleCircleIntersection(R_d, r_d)`
returns. -/
theorem roundOffsets_of_far (sqrt : K → K) (defaultTol : K) (circle1 it : Circle2 K)
    (hd : 1e-9 ≤ Point2.dist sqrt circle1.center it.center) :
    roundOffsets sqrt defaultTol circle1 it =
      Point2.CircleCircleIntersection_fh sqrt
        (circle1.radius / Point2.dist sqrt circle1.center it.center)
        (it.radius / Point2.dist sqrt circle1.center it.center) defaultTol := by
  unfold roundOffsets
  simp only [if_neg (not_lt.mpr hd)]

/-- Where the points of `CircleCircleIntersection(c1, c2, fh)` lie, the offsets
`fh` being those of the radii `r1 = R_d * d`, `r2 = r_d * d` for the distance `d`
of the centres: for `h ≠ 0` on both circles, and for `h = 0` at
`c1 + f * (c2 - c1)`, whose squared distance to each centre is within `tol * d^2`
of the squared radius. -/
theorem pts_geometry (sqrt : K → K)
    (hsqrt : ∀ x : K, 0 ≤ x → 0 ≤ sqrt x ∧ sqrt x * sqrt x = x)
    (tol : K) (htol : 0 < tol) (c1 c2 : Point2 K) (d R_d r_d r1 r2 : K)
    (hdd : d * d = (c2.x - c1.x) * (c2.x - c1.x) + (c2.y - c1.y) * (c2.y - c1.y))
    (hR : R_d * d = r1) (hr : r_d * d = r2) (hr1 : 0 ≤ r1) (hr2 : 0 ≤ r2)
    (fh p : Point2 K)
    (hfh : Point2.CircleCircleIntersection_fh sqrt R_d r_d tol = some fh)
    (hmem : p ∈ Point2.CircleCircleIntersection_pts c1 c2 (some fh)) :
    (fh.y ≠ 0 → Point2.dist sqrt c1 p = r1 ∧ Point2.dist sqrt c2 p = r2) ∧
    (fh.y = 0 →
      p = Point2.add c1 (Point2.smul fh.x (Point2.sub c2 c1)) ∧
      |(p.x - c1.x) * (p.x - c1.x) + (p.y - c1.y) * (p.y - c1.y) - r1 * r1| ≤ tol * (d * d) ∧
      |(p.x - c2.x) * (p.x - c2.x) + (p.y - c2.y) * (p.y - c2.y) - r2 * r2|
        ≤ tol * (d * d)) := by
  obtain ⟨hx, hcases⟩ := fh_cases sqrt R_d r_d tol fh hfh
  have hf : 2 * fh.x = 1 + R_d * R_d - r_d * r_d := by rw [hx]; ring
  constructor
  · intro hy
    rcases hcases with ⟨_, _, h0⟩ | ⟨hh0, _, hyv⟩
    · exact absurd h0 hy
    · have hh : fh.y * fh.y = R_d * R_d - fh.x * fh.x := by
        rw [hyv]; exact (hsqrt _ hh0).2
      have hy0 : ¬ fh.y = 0.0 := by rw [lit_zero]; exact hy
      simp only [Point2.CircleCircleIntersection_pts, if_neg hy0, List.mem_cons,
        List.mem_singleton, List.mem_nil_iff, or_false] at hmem
      rcases hmem with e | e
      · have key := offset_point_on_circles sqrt hsqrt c1 c2 d R_d r_d fh.x fh.y
          r1 r2 1 hdd hR hr hr1 hr2 hf hh (by ring)
        have ep : p = ⟨c1.x + fh.x * (c2.x - c1.x) + 1 * (fh.y * -(c2.y - c1.y)),
            c1.y + fh.x * (c2.y - c1.y) + 1 * (fh.y * (c2.x - c1.x))⟩ := by
          rw [e]
          simp only [Point2.add, Point2.smul, Point2.sub, one_mul]
        rw [ep]; exact key
      · have key := offset_point_on_circles sqrt hsqrt c1 c2 d R_d r_d fh.x fh.y
          r1 r2 (-1) hdd hR hr hr1 hr2 hf hh (by ring)
        have ep : p = ⟨c1.x + fh.x * (c2.x - c1.x) + -1 * (fh.y * -(c2.y - c1.y)),
            c1.y + fh.x * (c2.y - c1.y) + -1 * (fh.y * (c2.x - c1.x))⟩ := by
          rw [e]
          simp only [Point2.add, Point2.smul, Point2.sub]
          congr 1 <;> ring
        rw [ep]; exact key
  · intro hy
    rcases hcases with ⟨hlo, hhi, _⟩ | ⟨hh0, hge, hyv⟩
    · have hy0 : fh.y = 0.0 := by rw [lit_zero]; exact hy
      simp only [Point2.CircleCircleIntersection_pts, if_pos hy0, List.mem_singleton] at hmem
      have hdd0 : 0 ≤ d * d := mul_self_nonneg d
      have a1 := mul_le_mul_of_nonneg_right hhi.le hdd0
      have a2 := mul_le_mul_of_nonneg_right hlo hdd0
      refine ⟨hmem, ?_, ?_⟩
      · have e : (p.x - c1.x) * (p.x - c1.x) + (p.y - c1.y) * (p.y - c1.y) - r1 * r1
            = -(R_d * R_d - fh.x * fh.x) * (d * d) := by
          rw [hmem, ← hR]
          simp only [Point2.add, Point2.smul, Point2.sub]
          linear_combination (-(fh.x * fh.x)) * hdd
        rw [e, abs_le]
        constructor <;> linarith
      · have e : (p.x - c2.x) * (p.x - c2.x) + (p.y - c2.y) * (p.y - c2.y) - r2 * r2
            = -(R_d * R_d - fh.x * fh.x) * (d * d) := by
          rw [hmem, ← hr]
          simp only [Point2.add, Point2.smul, Point2.sub]
          linear_combination (-((fh.x - 1) * (fh.x - 1))) * hdd + (-(d * d)) * hf
        rw [e, abs_le]
        constructor <;> linarith
    · exfalso
      have h1 := (hsqrt _ hh0).2
      rw [← hyv, hy] at h1
      linarith

/-- C13, as the code has it: when the values hold a pose for every key, the radii
are not negative, the square root is exact and `tol > 0`, and for some circle
whose centre is at least `1e-9` away from the first centre
`CircleCircleIntersection(R_d, r_d)` returns offsets (the circles intersect up to
`tol`), `triangulate` returns a point `p` for the first circle and the circle
`best` whose `h = fh.y` is the largest among these circles, the earliest one
winning ties.  When `h ≠ 0` the point `p` lies on both circles; when `h = 0` it is
`c1 + f * (c_best - c1)` and its squared distance to either centre differs from
the squared radius by at most `tol * d^2`, `d` being the distance of the two
centres. -/
theorem triangulate_best_pair {Pose2 : Type} (sqrt : K → K)
    (hsqrt : ∀ x : K, 0 ≤ x → 0 ≤ sqrt x ∧ sqrt x * sqrt x = x)
    (defaultTol : K) (htol : 0 < defaultTol)
    (P : Pose2Ops K Pose2) (self : SmartRangeFactor K) (x : Values Pose2)
    (circle1 : Circle2 K) (rest : List (Circle2 K))
    (hc : circles P self x = .ok (circle1 :: rest))
    (hrad : ∀ c ∈ circle1 :: rest, 0 ≤ c.radius)
    (hex : ∃ c ∈ circle1 :: rest, 1e-9 ≤ Point2.dist sqrt circle1.center c.center ∧
      ∃ g, Point2.CircleCircleIntersection_fh sqrt
        (circle1.radius / Point2.dist sqrt circle1.center c.center)
        (c.radius / Point2.dist sqrt circle1.center c.center) defaultTol = some g) :
    ∃ (before after : List (Circle2 K)) (best : Circle2 K) (fh p : Point2 K),
      circle1 :: rest = before ++ best :: after ∧
      1e-9 ≤ Point2.dist sqrt circle1.center best.center ∧
      Point2.CircleCircleIntersection_fh sqrt
        (circle1.radius / Point2.dist sqrt circle1.center best.center)
        (best.radius / Point2.dist sqrt circle1.center best.center) defaultTol = some fh ∧
      (∀ c ∈ before, 1e-9 ≤ Point2.dist sqrt circle1.center c.center →
        ∀ g, Point2.CircleCircleIntersection_fh sqrt
          (circle1.radius / Point2.dist sqrt circle1.center c.center)
          (c.radius / Point2.dist sqrt circle1.center c.center) defaultTol = some g →
        g.y < fh.y) ∧
      (∀ c ∈ after, 1e-9 ≤ Point2.dist sqrt circle1.center c.center →
        ∀ g, Point2.CircleCircleIntersection_fh sqrt
          (circle1.radius / Point2.dist sqrt circle1.center c.center)
          (c.radius / Point2.dist sqrt circle1.center c.center) defaultTol = some g →
        g.y ≤ fh.y) ∧
      triangulate sqrt defaultTol P self x = .ok p ∧
      (fh.y ≠ 0 →
        Point2.dist sqrt circle1.center p = circle1.radius ∧
        Point2.dist sqrt best.center p = best.radius) ∧
      (fh.y = 0 →
        p = Point2.add circle1.center
          (Point2.smul fh.x (Point2.sub best.center circle1.center)) ∧
        |(p.x - circle1.center.x) * (p.x - circle1.center.x)
            + (p.y - circle1.center.y) * (p.y - circle1.center.y)
            - circle1.radius * circle1.radius|
          ≤ defaultTol * (Point2.dist sqrt circle1.center best.center
            * Point2.dist sqrt circle1.center best.center) ∧
        |(p.x - best.center.x) * (p.x - best.center.x)
            + (p.y - best.center.y) * (p.y - best.center.y)
            - best.radius * best.radius|
          ≤ defaultTol * (Point2.dist sqrt circle1.center best.center
            * Point2.dist sqrt circle1.center best.center)) := by
  have hex2 : ∃ c ∈ circle1 :: rest, ∃ g, roundOffsets sqrt defaultTol circle1 c = some g := by
    obtain ⟨c, hcm, hd, g, hg⟩ := hex
    exact ⟨c, hcm, g, by rw [roundOffsets_of_far sqrt defaultTol circle1 c hd]; exact hg⟩
  obtain ⟨before, after, b, fh, p, hsplit, hd, hfh, hbefore, hafter, htri, hmem⟩ :=
    triangulate_picks_best sqrt defaultTol P self x circle1 rest hc hex2
  have hbmem : b ∈ circle1 :: rest := by rw [hsplit]; simp
  have hD0 : 0 ≤ (b.center.x - circle1.center.x) * (b.center.x - circle1.center.x)
      + (b.center.y - circle1.center.y) * (b.center.y - circle1.center.y) :=
    add_nonneg (mul_self_nonneg _) (mul_self_nonneg _)
  have hd0 : Point2.dist sqrt circle1.center b.center ≠ 0 :=
    ne_of_gt (lt_of_lt_of_le lit_tiny_pos hd)
  obtain ⟨g1, g2⟩ := pts_geometry sqrt hsqrt defaultTol htol circle1.center b.center
    (Point2.dist sqrt circle1.center b.center) _ _ circle1.radius b.radius
    (hsqrt _ hD0).2 (div_mul_cancel₀ _ hd0) (div_mul_cancel₀ _ hd0)
    (hrad circle1 (List.mem_cons_self _ _)) (hrad b hbmem) fh p hfh hmem
  refine ⟨before, after, b, fh, p, hsplit, hd, hfh, ?_, ?_, htri, g1, g2⟩
  · intro c hcm hdc g hg
    exact hbefore c hcm g (by rw [roundOffsets_of_far sqrt defaultTol circle1 c hdc]; exact hg)
  · intro c hcm hdc g hg
    exact hafter c hcm g (by rw [roundOffsets_of_far sqrt defaultTol circle1 c hdc]; exact hg)

/-- With a square root that is exact on squares, two points whose squared
distance is `r * r`, `r` not negative, are at distance `r`. -/
theorem dist_of_sq (sqrt : K → K) (hsq : ∀ r : K, 0 ≤ r → sqrt (r * r) = r)
    (p q : Point2 K) (r : K) (hr : 0 ≤ r)
    (h : (q.x - p.x) * (q.x - p.x) + (q.y - p.y) * (q.y - p.y) = r * r) :
    Point2.dist sqrt p q = r := by
  unfold Point2.dist Point2.norm Point2.sub
  simp only []
  rw [h]
  exact hsq r hr

/-- The rounds of the loop for the circles of radius 30 around `(0, 0)`, of radius
30 around `(36, 0)` and of radius 35 around `(-3, 4)`, against the first one. -/
theorem roundOffsets_three (sqrt : K → K) (hsq : ∀ r : K, 0 ≤ r → sqrt (r * r) = r) :
    roundOffsets sqrt 1e-9 ⟨⟨0, 0⟩, 30⟩ ⟨⟨0, 0⟩, 30⟩ = none ∧
    roundOffsets sqrt 1e-9 ⟨⟨0, 0⟩, 30⟩ ⟨⟨36, 0⟩, 30⟩ = some ⟨1 / 2, 2 / 3⟩ ∧
    roundOffsets sqrt 1e-9 ⟨⟨0, 0⟩, 30⟩ ⟨⟨-3, 4⟩, 35⟩ = some ⟨-6, 0⟩ := by
  have d1 : Point2.dist sqrt (⟨0, 0⟩ : Point2 K) ⟨0, 0⟩ = 0 :=
    dist_of_sq sqrt hsq _ _ 0 le_rfl (by norm_num)
  have d2 : Point2.dist sqrt (⟨0, 0⟩ : Point2 K) ⟨36, 0⟩ = 36 :=
    dist_of_sq sqrt hsq _ _ 36 (by norm_num) (by norm_num)
  have d3 : Point2.dist sqrt (⟨0, 0⟩ : Point2 K) ⟨-3, 4⟩ = 5 :=
    dist_of_sq sqrt hsq _ _ 5 (by norm_num) (by norm_num)
  have h49 : sqrt (4 / 9 : K) = 2 / 3 := by
    have h := hsq (2 / 3) (by norm_num)
    rwa [show (2 / 3 : K) * (2 / 3) = 4 / 9 by norm_num] at h
  refine ⟨?_, ?_, ?_⟩
  · simp only [roundOffsets, d1]
    norm_num
  · simp only [roundOffsets, d2, Point2.CircleCircleIntersection_fh]
    norm_num [h49]
  · simp only [roundOffsets, d3, Point2.CircleCircleIntersection_fh]
    norm_num

/-- The two intersection points of the circles of radius 30 around `(0, 0)` and
`(36, 0)`, from the offsets `(1/2, 2/3)`. -/
theorem pts_three :
    Point2.CircleCircleIntersection_pts (⟨0, 0⟩ : Point2 K) ⟨36, 0⟩ (some ⟨1 / 2, 2 / 3⟩)
      = [⟨18, 24⟩, ⟨18, -24⟩] := by
  simp only [Point2.CircleCircleIntersection_pts, Point2.add, Point2.sub, Point2.smul]
  norm_num

/-- The distances from `(0, 0)`, `(36, 0)` and `(-3, 4)` to `(18, 24)` and to
`(18, -24)`, the square root being exact on squares. -/
theorem dist_three (sqrt : K → K) (hsq : ∀ r : K, 0 ≤ r → sqrt (r * r) = r) :
    Point2.dist sqrt (⟨0, 0⟩ : Point2 K) ⟨18, 24⟩ = 30 ∧
    Point2.dist sqrt (⟨36, 0⟩ : Point2 K) ⟨18, 24⟩ = 30 ∧
    Point2.dist sqrt (⟨-3, 4⟩ : Point2 K) ⟨18, 24⟩ = 29 ∧
    Point2.dist sqrt (⟨0, 0⟩ : Point2 K) ⟨18, -24⟩ = 30 ∧
    Point2.dist sqrt (⟨36, 0⟩ : Point2 K) ⟨18, -24⟩ = 30 ∧
    Point2.dist sqrt (⟨-3, 4⟩ : Point2 K) ⟨18, -24⟩ = 35 :=
  ⟨dist_of_sq sqrt hsq _ _ 30 (by norm_num) (by norm_num),
   dist_of_sq sqrt hsq _ _ 30 (by norm_num) (by norm_num),
   dist_of_sq sqrt hsq _ _ 29 (by norm_num) (by norm_num),
   dist_of_sq sqrt hsq _ _ 30 (by norm_num) (by norm_num),
   dist_of_sq sqrt hsq _ _ 30 (by norm_num) (by norm_num),
   dist_of_sq sqrt hsq _ _ 35 (by norm_num) (by norm_num)⟩

/-- What `triangulate` returns for the poses at `(0, 0)`, `(36, 0)` and `(-3, 4)`
with the ranges 30, 30 and 35, the square root being exact on squares. -/
theorem triangulate_three (sqrt : K → K) (hsq : ∀ r : K, 0 ≤ r → sqrt (r * r) = r) :
    triangulate sqrt 1e-9 (headingZeroPose2 sqrt)
      (addRange (addRange (addRange (create 1) 0 30) 1 30) 2 35)
      (fun k => if k = 0 then some ⟨0, 0⟩ else if k = 1 then some ⟨36, 0⟩
        else if k = 2 then some ⟨-3, 4⟩ else none) = .ok ⟨18, 24⟩ := by
  obtain ⟨r1, r2, r3⟩ := roundOffsets_three sqrt hsq
  have hc : circles (headingZeroPose2 sqrt)
      (addRange (addRange (addRange (create (1 : K)) 0 30) 1 30) 2 35)
      (fun k => if k = 0 then some ⟨0, 0⟩ else if k = 1 then some ⟨36, 0⟩
        else if k = 2 then some ⟨-3, 4⟩ else none)
      = .ok [⟨⟨0, 0⟩, 30⟩, ⟨⟨36, 0⟩, 30⟩, ⟨⟨-3, 4⟩, 35⟩] := rfl
  have hb : bestPair sqrt 1e-9 ⟨⟨0, 0⟩, 30⟩
      [⟨⟨0, 0⟩, 30⟩, ⟨⟨36, 0⟩, 30⟩, ⟨⟨-3, 4⟩, 35⟩]
      = some (⟨1 / 2, 2 / 3⟩, ⟨⟨36, 0⟩, 30⟩) := by
    simp only [bestPair, List.foldl, bestPairStep, r1, r2, r3]
    norm_num
  have hp : Point2.CircleCircleIntersection_pts (⟨0, 0⟩ : Point2 K) ⟨36, 0⟩
      (some ⟨1 / 2, 2 / 3⟩) = [⟨18, 24⟩, ⟨18, -24⟩] := pts_three
  obtain ⟨e11, e12, e13, e21, e22, e23⟩ := dist_three sqrt hsq
  have hw : winnerErrors sqrt [⟨⟨0, 0⟩, 30⟩, ⟨⟨36, 0⟩, 30⟩, ⟨⟨-3, 4⟩, 35⟩]
      (⟨18, 24⟩ : Point2 K) ⟨18, -24⟩ = (89, 95) := by
    simp only [winnerErrors, List.foldl, e11, e12, e13, e21, e22, e23]
    norm_num
  unfold triangulate
  rw [hc]
  simp only [bind, Except.bind, hb, hp, List.head?, List.getLast?, List.getLast, hw]
  norm_num

/-- C13, as the code has it, over the reals at the poses `(0, 0)`, `(36, 0)`,
`(-3, 4)` with the ranges 30, 30, 35: the best pair is the first two circles,
with `h = 2/3`, and the point returned is at distance 30 from both centres. -/
theorem triangulate_best_pair_witness :
    ∃ p : Point2 ℝ,
      triangulate Real.sqrt 1e-9 (headingZeroPose2 Real.sqrt)
        (addRange (addRange (addRange (create 1) 0 30) 1 30) 2 35)
        (fun k => if k = 0 then some ⟨0, 0⟩ else if k = 1 then some ⟨36, 0⟩
          else if k = 2 then some ⟨-3, 4⟩ else none) = .ok p ∧
      Point2.dist Real.sqrt ⟨0, 0⟩ p = 30 ∧ Point2.dist Real.sqrt ⟨36, 0⟩ p = 30 := by
  have hsq : ∀ r : ℝ, 0 ≤ r → Real.sqrt (r * r) = r := fun r hr => Real.sqrt_mul_self hr
  obtain ⟨r1, r2, r3⟩ := roundOffsets_three Real.sqrt hsq
  obtain ⟨hd2, hf2⟩ := roundOffsets_some Real.sqrt 1e-9 ⟨⟨0, 0⟩, 30⟩ ⟨⟨36, 0⟩, 30⟩ _ r2
  obtain ⟨hd3, hf3⟩ := roundOffsets_some Real.sqrt 1e-9 ⟨⟨0, 0⟩, 30⟩ ⟨⟨-3, 4⟩, 35⟩ _ r3
  obtain ⟨before, after, best, fh, p, hsplit, hd, hfh, hb, _, htri, g1, _⟩ :=
    triangulate_best_pair Real.sqrt Point2.real_sqrt_exact 1e-9 (by norm_num)
      (headingZeroPose2 Real.sqrt)
      (addRange (addRange (addRange (create 1) 0 30) 1 30) 2 35)
      (fun k => if k = 0 then some ⟨0, 0⟩ else if k = 1 then some ⟨36, 0⟩
        else if k = 2 then some ⟨-3, 4⟩ else none)
      ⟨⟨0, 0⟩, 30⟩ [⟨⟨36, 0⟩, 30⟩, ⟨⟨-3, 4⟩, 35⟩] rfl
      (by
        intro c hc
        simp only [List.mem_cons, List.mem_singleton, List.mem_nil_iff, or_false] at hc
        rcases hc with rfl | rfl | rfl <;> norm_num)
      ⟨⟨⟨36, 0⟩, 30⟩, by simp, hd2, _, hf2⟩
  have hbest : best = ⟨⟨36, 0⟩, 30⟩ := by
    rcases before with _ | ⟨b1, _ | ⟨b2, _ | ⟨b3, bs⟩⟩⟩
    · -- the first circle is its own best: its centre is not `1e-9` away
      simp only [List.nil_append, List.cons.injEq] at hsplit
      exfalso
      rw [← hsplit.1] at hd
      have d1 : Point2.dist Real.sqrt (⟨0, 0⟩ : Point2 ℝ) ⟨0, 0⟩ = 0 :=
        dist_of_sq Real.sqrt hsq _ _ 0 le_rfl (by norm_num)
      simp only [d1] at hd
      norm_num at hd
    · simp only [List.cons_append, List.nil_append, List.cons.injEq] at hsplit
      exact hsplit.2.1.symm
    · -- the third circle has `h = 0`, less than `2/3`
      simp only [List.cons_append, List.nil_append, List.cons.injEq] at hsplit
      exfalso
      obtain ⟨e1, e2, e3, _⟩ := hsplit
      have hlt := hb b2 (by simp) (by rw [← e2]; exact hd2) _ (by rw [← e2]; exact hf2)
      rw [← e3, hf3] at hfh
      injection hfh with hfh
      rw [← hfh] at hlt
      norm_num at hlt
    · simp at hsplit
  subst hbest
  rw [hf2] at hfh
  injection hfh with hfh
  have hy : fh.y ≠ 0 := by rw [← hfh]; norm_num
  exact ⟨p, htri, g1 hy⟩

/-- What `triangulate` returns for the poses at `(0, 0)`, `(2 + 1e-10, 0)` and
`(0, 2)` with the ranges 1, 1 and 1, the square root being exact on squares: the
second circle, `1e-10` short of touching the first, gets the offsets `(1/2, 0)`
and is kept against the third, which touches the first. -/
theorem triangulate_near_miss (sqrt : K → K) (hsq : ∀ r : K, 0 ≤ r → sqrt (r * r) = r) :
    triangulate sqrt 1e-9 (headingZeroPose2 sqrt)
      (addRange (addRange (addRange (create 1) 0 1) 1 1) 2 1)
      (fun k => if k = 0 then some ⟨0, 0⟩ else if k = 1 then some ⟨2 + 1e-10, 0⟩
        else if k = 2 then some ⟨0, 2⟩ else none) = .ok ⟨1 + 5e-11, 0⟩ := by
  have hc : circles (headingZeroPose2 sqrt)
      (addRange (addRange (addRange (create (1 : K)) 0 1) 1 1) 2 1)
      (fun k => if k = 0 then some ⟨0, 0⟩ else if k = 1 then some ⟨2 + 1e-10, 0⟩
        else if k = 2 then some ⟨0, 2⟩ else none)
      = .ok [⟨⟨0, 0⟩, 1⟩, ⟨⟨2 + 1e-10, 0⟩, 1⟩, ⟨⟨0, 2⟩, 1⟩] := rfl
  have d1 : Point2.dist sqrt (⟨0, 0⟩ : Point2 K) ⟨0, 0⟩ = 0 :=
    dist_of_sq sqrt hsq _ _ 0 le_rfl (by norm_num)
  have d2 : Point2.dist sqrt (⟨0, 0⟩ : Point2 K) ⟨2 + 1e-10, 0⟩ = 2 + 1e-10 :=
    dist_of_sq sqrt hsq _ _ (2 + 1e-10) (by norm_num) (by norm_num)
  have d3 : Point2.dist sqrt (⟨0, 0⟩ : Point2 K) ⟨0, 2⟩ = 2 :=
    dist_of_sq sqrt hsq _ _ 2 (by norm_num) (by norm_num)
  have r1 : roundOffsets sqrt 1e-9 (⟨⟨0, 0⟩, 1⟩ : Circle2 K) ⟨⟨0, 0⟩, 1⟩ = none := by
    simp only [roundOffsets, d1]
    norm_num
  have r2 : roundOffsets sqrt 1e-9 (⟨⟨0, 0⟩, 1⟩ : Circle2 K) ⟨⟨2 + 1e-10, 0⟩, 1⟩
      = some ⟨1 / 2, 0⟩ := by
    simp only [roundOffsets, d2, Point2.CircleCircleIntersection_fh]
    norm_num
  have r3 : roundOffsets sqrt 1e-9 (⟨⟨0, 0⟩, 1⟩ : Circle2 K) ⟨⟨0, 2⟩, 1⟩
      = some ⟨1 / 2, 0⟩ := by
    simp only [roundOffsets, d3, Point2.CircleCircleIntersection_fh]
    norm_num
  have hb : bestPair sqrt 1e-9 (⟨⟨0, 0⟩, 1⟩ : Circle2 K)
      [⟨⟨0, 0⟩, 1⟩, ⟨⟨2 + 1e-10, 0⟩, 1⟩, ⟨⟨0, 2⟩, 1⟩]
      = some (⟨1 / 2, 0⟩, ⟨⟨2 + 1e-10, 0⟩, 1⟩) := by
    simp only [bestPair, List.foldl, bestPairStep, r1, r2, r3]
    norm_num
  have hp : Point2.CircleCircleIntersection_pts (⟨0, 0⟩ : Point2 K) ⟨2 + 1e-10, 0⟩
      (some ⟨1 / 2, 0⟩) = [⟨1 + 5e-11, 0⟩] := by
    simp only [Point2.CircleCircleIntersection_pts, Point2.add, Point2.sub, Point2.smul]
    norm_num
  unfold triangulate
  rw [hc]
  simp only [bind, Except.bind, hb, hp, List.head?, List.getLast?, List.getLast, ite_self]

/-- C13 fails as stated.  Over the reals, for the poses `(0, 0)`, `(2 + 1e-10, 0)`
and `(0, 2)` with the ranges 1, 1, 1 the third circle touches the first one at
`(0, 1)` and the second circle is apart from the first one, yet `triangulate`
returns `(1 + 5e-11, 0)`, which is not on the first circle. -/
theorem triangulate_within_tolerance :
    triangulate Real.sqrt 1e-9 (headingZeroPose2 Real.sqrt)
      (addRange (addRange (addRange (create 1) 0 1) 1 1) 2 1)
      (fun k => if k = 0 then some ⟨0, 0⟩ else if k = 1 then some ⟨2 + 1e-10, 0⟩
        else if k = 2 then some ⟨0, 2⟩ else none) = .ok ⟨1 + 5e-11, 0⟩ ∧
    (Point2.dist Real.sqrt ⟨0, 0⟩ ⟨0, 1⟩ = 1 ∧ Point2.dist Real.sqrt ⟨0, 2⟩ ⟨0, 1⟩ = 1) ∧
    1 + 1 < Point2.dist Real.sqrt ⟨0, 0⟩ ⟨2 + 1e-10, 0⟩ ∧
    Point2.dist Real.sqrt ⟨0, 0⟩ ⟨1 + 5e-11, 0⟩ ≠ 1 := by
  have hsq : ∀ r : ℝ, 0 ≤ r → Real.sqrt (r * r) = r := fun r hr => Real.sqrt_mul_self hr
  have e1 : Point2.dist Real.sqrt ⟨0, 0⟩ ⟨0, 1⟩ = 1 :=
    dist_of_sq Real.sqrt hsq _ _ 1 (by norm_num) (by norm_num)
  have e2 : Point2.dist Real.sqrt ⟨0, 2⟩ ⟨0, 1⟩ = 1 :=
    dist_of_sq Real.sqrt hsq _ _ 1 (by norm_num) (by norm_num)
  have e3 : Point2.dist Real.sqrt ⟨0, 0⟩ ⟨2 + 1e-10, 0⟩ = 2 + 1e-10 :=
    dist_of_sq Real.sqrt hsq _ _ (2 + 1e-10) (by norm_num) (by norm_num)
  have e4 : Point2.dist Real.sqrt ⟨0, 0⟩ ⟨1 + 5e-11, 0⟩ = 1 + 5e-11 :=
    dist_of_sq Real.sqrt hsq _ _ (1 + 5e-11) (by norm_num) (by norm_num)
  refine ⟨triangulate_near_miss Real.sqrt hsq, ⟨e1, e2⟩, ?_, ?_⟩
  · rw [e3]; norm_num
  · rw [e4]; norm_num

/-- C14 fails on the code.  Over the reals, for the poses `(0, 0)`, `(36, 0)`,
`(-3, 4)` with the ranges 30, 30, 35 the candidates are `(18, 24)` and
`(18, -24)`; `triangulate` returns `(18, 24)`, whose total discrepancy with the
ranges is 6, while that of `(18, -24)` is 0. -/
theorem triangulate_ignores_ranges :
    Point2.CircleCircleIntersection_pts (⟨0, 0⟩ : Point2 ℝ) ⟨36, 0⟩ (some ⟨1 / 2, 2 / 3⟩)
      = [⟨18, 24⟩, ⟨18, -24⟩] ∧
    triangulate Real.sqrt 1e-9 (headingZeroPose2 Real.sqrt)
      (addRange (addRange (addRange (create 1) 0 30) 1 30) 2 35)
      (fun k => if k = 0 then some ⟨0, 0⟩ else if k = 1 then some ⟨36, 0⟩
        else if k = 2 then some ⟨-3, 4⟩ else none) = .ok ⟨18, 24⟩ ∧
    |Point2.dist Real.sqrt ⟨0, 0⟩ ⟨18, 24⟩ - 30| + |Point2.dist Real.sqrt ⟨36, 0⟩ ⟨18, 24⟩ - 30|
      + |Point2.dist Real.sqrt ⟨-3, 4⟩ ⟨18, 24⟩ - 35| = 6 ∧
    |Point2.dist Real.sqrt ⟨0, 0⟩ ⟨18, -24⟩ - 30| + |Point2.dist Real.sqrt ⟨36, 0⟩ ⟨18, -24⟩ - 30|
      + |Point2.dist Real.sqrt ⟨-3, 4⟩ ⟨18, -24⟩ - 35| = 0 := by
  have hsq : ∀ r : ℝ, 0 ≤ r → Real.sqrt (r * r) = r := fun r hr => Real.sqrt_mul_self hr
  obtain ⟨e11, e12, e13, e21, e22, e23⟩ := dist_three Real.sqrt hsq
  refine ⟨pts_three, triangulate_three Real.sqrt hsq, ?_, ?_⟩
  · rw [e11, e12, e13]; norm_num
  · rw [e21, e22, e23]; norm_num

end SmartRangeFactor

/-- C15 fails on the code: `equals` returns `false` for every pair of factors,
a factor and itself included. -/
theorem SmartRangeFactor.equals_returns_false {K : Type} (self f : SmartRangeFactor K)
    (tol : K) :
    SmartRangeFactor.equals self f tol = false := rfl

/-- C16: `Factor::equals` is true exactly when the two key lists are the same,
entry by entry and in the same order (keys `(1, 2)` against `(2, 1)` gives
`false`); the result does not depend on `tol`, and `equals` is reflexive,
symmetric and transitive. -/
theorem Factor.equals_iff_same_keys {K : Type} (f g h : Factor) (tol tol2 : K) :
    (Factor.equals f g tol = true ↔ f.keys_ = g.keys_) ∧
    (Factor.equals f g tol = true ↔
      f.keys_.length = g.keys_.length ∧ ∀ i : Nat, f.keys_[i]? = g.keys_[i]?) ∧
    Factor.equals ⟨[1, 2]⟩ ⟨[2, 1]⟩ tol = false ∧
    Factor.equals f g tol = Factor.equals f g tol2 ∧
    Factor.equals f f tol = true ∧
    Factor.equals f g tol = Factor.equals g f tol ∧
    (Factor.equals f g tol = true → Factor.equals g h tol = true →
      Factor.equals f h tol = true) := by
  have e : ∀ a b : Factor, (Factor.equals a b tol = true ↔ a.keys_ = b.keys_) := by
    intro a b; simp [Factor.equals]
  refine ⟨e f g, ?_, by simp [Factor.equals], rfl, (e f f).mpr rfl, ?_, ?_⟩
  · rw [e]
    constructor
    · intro h; rw [h]; simp
    · rintro ⟨_, h2⟩
      exact List.ext_getElem? h2
  · simp only [Factor.equals]
    by_cases hfg : f.keys_ = g.keys_
    · simp [hfg]
    · have : ¬ g.keys_ = f.keys_ := fun h => hfg h.symm
      simp [hfg, this]
  · intro h1 h2
    rw [e] at h1 h2 ⊢
    rw [h1, h2]

namespace TransformBtwRobotsUnaryFactorEM

variable {K T : Type} [LinearOrderedField K]

/-- The bump of `calcIndicatorProb` on two numbers `p`, `q` that are not negative
and of sum 1: what comes out is at least `0.05 / 1.05`. -/
theorem bump_floor (p q : K) (hp : 0 ≤ p) (hq : 0 ≤ q) (hs : p + q = 1) :
    ∃ p2 q2 : K,
      (if p < 0.05 ∨ q < 0.05 then
          [(if p < 0.05 then 0.05 else p)
              / ((if p < 0.05 then 0.05 else p) + (if q < 0.05 then 0.05 else q)),
            (if q < 0.05 then 0.05 else q)
              / ((if p < 0.05 then 0.05 else p) + (if q < 0.05 then 0.05 else q))]
        else [p, q]) = [p2, q2] ∧
      0.05 / 1.05 ≤ p2 ∧ 0.05 / 1.05 ≤ q2 := by
  have m5 : (0.05 : K) = 5 / 100 := by norm_num
  have m105 : (0.05 / 1.05 : K) = 1 / 21 := by norm_num
  rw [m105]
  simp only [m5]
  by_cases h1 : p < 5 / 100
  · have h2 : ¬ q < 5 / 100 := by intro h; linarith
    have hpos : (0 : K) < 5 / 100 + q := by linarith
    refine ⟨_, _, by rw [if_pos (Or.inl h1), if_pos h1, if_neg h2], ?_, ?_⟩
    · rw [le_div_iff₀ hpos]; linarith
    · rw [le_div_iff₀ hpos]; linarith
  · by_cases h2 : q < 5 / 100
    · have hpos : (0 : K) < p + 5 / 100 := by linarith
      refine ⟨_, _, by rw [if_pos (Or.inr h2), if_neg h1, if_pos h2], ?_, ?_⟩
      · rw [le_div_iff₀ hpos]; linarith
      · rw [le_div_iff₀ hpos]; linarith
    · refine ⟨p, q, by rw [if_neg (by tauto)], ?_, ?_⟩
      · linarith [not_lt.mp h1]
      · linarith [not_lt.mp h2]

/-- C17, as the code has it: with the flag `flag_bump_up_near_zero_probs_` set,
positive priors, `sqrt` and `exp` that return no negative value, and a residual
at which the sum `sumP` of the two weights before normalisation is positive, the
two indicator probabilities that `calcIndicatorProb` returns are at least
`0.05 / 1.05`. -/
theorem calcIndicatorProb_floor (sqrt exp : K → K)
    (hsqrt : ∀ t, 0 ≤ sqrt t) (hexp : ∀ t, 0 ≤ exp t)
    (self : TransformBtwRobotsUnaryFactorEM K T)
    (hflag : self.flag_bump_up_near_zero_probs_ = true)
    (hpi : 0 < self.prior_inlier_) (hpo : 0 < self.prior_outlier_)
    (x : Values T) (err : Vector K)
    (hsum : 0 <
      self.prior_inlier_ * sqrt (Matrix.norm sqrt
          (Matrix.mul (Matrix.transpose self.model_inlier_.R) self.model_inlier_.R))
        * exp (-0.5 * Vector.dot (self.model_inlier_.whiten err)
          (self.model_inlier_.whiten err))
      + self.prior_outlier_ * sqrt (Matrix.norm sqrt
          (Matrix.mul (Matrix.transpose self.model_outlier_.R) self.model_outlier_.R))
        * exp (-0.5 * Vector.dot (self.model_outlier_.whiten err)
          (self.model_outlier_.whiten err))) :
    ∃ p_inlier p_outlier, calcIndicatorProb sqrt exp self x err = [p_inlier, p_outlier] ∧
      0.05 / 1.05 ≤ p_inlier ∧ 0.05 / 1.05 ≤ p_outlier := by
  have ha := mul_nonneg (mul_nonneg hpi.le (hsqrt (Matrix.norm sqrt
      (Matrix.mul (Matrix.transpose self.model_inlier_.R) self.model_inlier_.R))))
    (hexp (-0.5 * Vector.dot (self.model_inlier_.whiten err) (self.model_inlier_.whiten err)))
  have hb := mul_nonneg (mul_nonneg hpo.le (hsqrt (Matrix.norm sqrt
      (Matrix.mul (Matrix.transpose self.model_outlier_.R) self.model_outlier_.R))))
    (hexp (-0.5 * Vector.dot (self.model_outlier_.whiten err) (self.model_outlier_.whiten err)))
  have hp := div_nonneg ha hsum.le
  have hq := div_nonneg hb hsum.le
  have hs := (add_div _ _ _).symm.trans (div_self (ne_of_gt hsum))
  obtain ⟨p2, q2, h, r1, r2⟩ := bump_floor _ _ hp hq hs
  refine ⟨p2, q2, ?_, r1, r2⟩
  rw [← h]
  unfold calcIndicatorProb
  simp only [hflag, if_true]

/-- The value of `calcIndicatorProb` over the reals at the residual `(0)`, for
two unit noise models of dimension 1 and the priors `1/100` and `99/100`. -/
theorem calcIndicatorProb_small_prior (F : TransformBtwRobotsUnaryFactorEM ℝ Unit)
    (hF : create 0 () 1 2 (fun k => if k = 1 then some () else none)
      (fun k => if k = 2 then some () else none) ⟨[[1]], id, id⟩ ⟨[[1]], id, id⟩
      (1 / 100) (99 / 100) true false = .ok F) :
    calcIndicatorProb Real.sqrt Real.exp F (fun _ => none) [0] = [5 / 104, 99 / 104] := by
  have e : F = ⟨[0], 0, (), fun k => if k = 1 then some () else none,
      fun k => if k = 2 then some () else none, 1, 2, ⟨[[1]], id, id⟩, ⟨[[1]], id, id⟩,
      1 / 100, 99 / 100, true, false⟩ := by
    have h : create 0 () 1 2 (fun k => if k = 1 then some () else none)
      (fun k => if k = 2 then some () else none)
      (⟨[[1]], id, id⟩ : SharedGaussian ℝ) ⟨[[1]], id, id⟩
      (1 / 100) (99 / 100) true false = .ok _ := rfl
    rw [h] at hF
    injection hF with hF
    exact hF.symm
  subst e
  have hM : Matrix.mul (Matrix.transpose [[(1 : ℝ)]]) [[1]] = [[1 * 1 + 0]] := rfl
  have hN : Matrix.norm Real.sqrt [[(1 : ℝ) * 1 + 0]] = 1 := by
    simp [Matrix.norm, Vector.dot]
  have hD : Vector.dot (id [(0 : ℝ)]) (id [(0 : ℝ)]) = 0 := by
    simp [Vector.dot]
  simp only [calcIndicatorProb, hM, hN, hD, Real.sqrt_one, mul_zero, Real.exp_zero]
  norm_num

/-- C17 fails as stated: the factor with unit noise models, priors `1/100` and
`99/100` and the flag set returns, at the residual `(0)`, the inlier probability
`5/104`, which is below `0.05`. -/
theorem calcIndicatorProb_below_floor :
    ∃ F : TransformBtwRobotsUnaryFactorEM ℝ Unit,
      create 0 () 1 2 (fun k => if k = 1 then some () else none)
        (fun k => if k = 2 then some () else none) ⟨[[1]], id, id⟩ ⟨[[1]], id, id⟩
        (1 / 100) (99 / 100) true false = .ok F ∧
      F.flag_bump_up_near_zero_probs_ = true ∧
      0 < F.prior_inlier_ ∧ 0 < F.prior_outlier_ ∧
      calcIndicatorProb Real.sqrt Real.exp F (fun _ => none) [0] = [5 / 104, 99 / 104] ∧
      (5 / 104 : ℝ) < 0.05 :=
  ⟨_, rfl, rfl, by norm_num, by norm_num, calcIndicatorProb_small_prior _ rfl, by norm_num⟩

/-- C17, as the code has it, over the reals at the same factor: both
probabilities are at least `0.05 / 1.05`. -/
theorem calcIndicatorProb_floor_witness :
    ∃ p_inlier p_outlier : ℝ,
      calcIndicatorProb Real.sqrt Real.exp
        (⟨[0], 0, (), fun k => if k = 1 then some () else none,
          fun k => if k = 2 then some () else none, 1, 2, ⟨[[1]], id, id⟩, ⟨[[1]], id, id⟩,
          1 / 100, 99 / 100, true, false⟩ : TransformBtwRobotsUnaryFactorEM ℝ Unit)
        (fun _ => none) [0] = [p_inlier, p_outlier] ∧
      0.05 / 1.05 ≤ p_inlier ∧ 0.05 / 1.05 ≤ p_outlier := by
  have hM : Matrix.mul (Matrix.transpose [[(1 : ℝ)]]) [[1]] = [[1 * 1 + 0]] := rfl
  have hN : Real.sqrt (Matrix.norm Real.sqrt [[(1 : ℝ) * 1 + 0]]) = 1 := by
    simp [Matrix.norm, Vector.dot]
  exact calcIndicatorProb_floor Real.sqrt Real.exp Real.sqrt_nonneg
    (fun t => (Real.exp_pos t).le) _ rfl (by norm_num) (by norm_num) (fun _ => none) [0]
    (by
      show 0 < 1 / 100 * Real.sqrt (Matrix.norm Real.sqrt
            (Matrix.mul (Matrix.transpose [[(1 : ℝ)]]) [[1]]))
          * Real.exp (-0.5 * Vector.dot (id [(0 : ℝ)]) (id [(0 : ℝ)]))
        + 99 / 100 * Real.sqrt (Matrix.norm Real.sqrt
            (Matrix.mul (Matrix.transpose [[(1 : ℝ)]]) [[1]]))
          * Real.exp (-0.5 * Vector.dot (id [(0 : ℝ)]) (id [(0 : ℝ)]))
      rw [hM, hN]
      positivity)

end TransformBtwRobotsUnaryFactorEM

end gtsam
